import Mathlib

/-!
Verification development for the AutoTagger batch ingestion-and-tagging
pipeline (`src/utils/batch_processing.py`).

The Python module is shallowly embedded: filesystem, network and classifier
effects are abstracted into an `Env` record of oracles, Python dicts become
association lists with last-write-wins lookup, and Python strings become Lean
`String`s with hand-rolled models of `str.strip`, `str.split`, `str.join`,
`os.path.basename` and `os.path.splitext`.
-/

namespace AutoTagger

/-! ## Python string primitives -/

/-- Whitespace characters stripped by Python `str.strip()` (ASCII subset). -/
def isPySpace (c : Char) : Bool :=
  c = ' ' || c = '\t' || c = '\n' || c = '\r' || c = '\x0b' || c = '\x0c'

/-- Strip leading whitespace from a character list. -/
def stripL (l : List Char) : List Char := l.dropWhile isPySpace

/-- Strip leading and trailing whitespace from a character list. -/
def stripChars (l : List Char) : List Char :=
  ((stripL l).reverse.dropWhile isPySpace).reverse

/-- Model of Python `str.strip()`. -/
def pyStrip (s : String) : String := ⟨stripChars s.data⟩

/-- Model of Python `str.split(c)` on character lists:
`splitChars c l` is the list of maximal `c`-free chunks of `l`. -/
def splitChars (c : Char) : List Char → List (List Char)
  | [] => [[]]
  | x :: xs =>
    if x = c then [] :: splitChars c xs
    else
      match splitChars c xs with
      | [] => [[x]]
      | h :: t => (x :: h) :: t

/-- Model of Python `str.split(c)`. -/
def pySplit (s : String) (c : Char) : List String :=
  (splitChars c s.data).map (⟨·⟩)

/-- Model of Python `sep.join(parts)` on character lists. -/
def joinChars (sep : List Char) : List (List Char) → List Char
  | [] => []
  | [x] => x
  | x :: y :: xs => x ++ sep ++ joinChars sep (y :: xs)

/-- Model of Python `sep.join(parts)`. -/
def pyJoin (sep : String) (l : List String) : String :=
  ⟨joinChars sep.data (l.map String.data)⟩

/-- Model of `os.path.basename` (POSIX): everything after the last `/`. -/
def basename (s : String) : String :=
  ⟨(s.data.reverse.takeWhile (fun c => c ≠ '/')).reverse⟩

/-- Model of `os.path.splitext(p)[1]`: the extension of the basename,
including the dot; leading dots of the basename never start an extension. -/
def extOf (p : String) : String :=
  let b := (p.data.reverse.takeWhile (fun c => c ≠ '/')).reverse
  let b' := b.dropWhile (fun c => c = '.')
  if b'.contains '.' then
    ⟨'.' :: (b'.reverse.takeWhile (fun c => c ≠ '.')).reverse⟩
  else ""

/-- Model of Python `str.lower()` (ASCII). -/
def pyLower (s : String) : String := ⟨s.data.map Char.toLower⟩

/-- Model of Python `str.startswith`. -/
def pyStartsWith (s pre : String) : Bool := pre.data.isPrefixOf s.data

/-! ## Data model

A Python result dict becomes a record of optional fields: a key is present in
the dict iff the corresponding field is `some`. -/

/-- One result record of the pipeline (`results_dict` values / `results`
elements in `batch_processing.py`). `Img` is the abstract type of decoded
in-memory images. -/
structure Record (Img : Type) where
  input : Option String := none
  url : Option String := none
  path : Option String := none
  filename : Option String := none
  tags : Option String := none
  scores : Option (List Int) := none
  image : Option Img := none
  error : Option String := none
deriving DecidableEq, Repr

/-- The external world: filesystem, HTTP and the external Classifier.
`fetchUrl` bundles `requests.get` + `raise_for_status` + `Image.open`;
`openImage` is `Image.open` on a path; `processImage`/`processImages` are
`tagger.process_image`/`tagger.process_images` (transform and threshold are
fixed by the call and folded into the oracle). -/
structure Env (Img : Type) where
  isfile : String → Bool
  listdir : String → Except String (List String)
  fetchUrl : String → Except String Img
  openImage : String → Except String Img
  processImage : Img → Except String (String × List Int)
  processImages : List Img → Except String (List (String × List Int))

/-- Python dict keyed by strings, as an association list where the *first*
match wins; an update prepends, so later writes shadow earlier ones. -/
abbrev Dict (Img : Type) : Type := List (String × Record Img)

/-- Python `d[k] = v`. -/
def dset {Img : Type} (d : Dict Img) (k : String) (v : Record Img) : Dict Img :=
  (k, v) :: d

/-- Python `d.get(k)` / `k in d`. -/
def dget {Img : Type} (d : Dict Img) (k : String) : Option (Record Img) :=
  List.lookup k d

/-! ## Embedding of `batch_processing.py` -/

/-- `get_supported_extensions` (lines 11-12). -/
def get_supported_extensions : List String :=
  [".jpg", ".jpeg", ".png", ".bmp", ".webp"]

/-- `is_valid_url` (lines 14-16). -/
def is_valid_url (url : String) : Bool :=
  pyStartsWith url "http://" || pyStartsWith url "https://"

/-- `is_valid_path` (lines 18-29): nonempty, `os.path.isfile`, and a
supported extension. -/
def is_valid_path {Img : Type} (env : Env Img) (path : String) : Bool :=
  if path = "" then false
  else if !(env.isfile path) then false
  else get_supported_extensions.contains (pyLower (extOf path))

/-- The error record written for an invalid input (lines 62-66). -/
def invalidRecord {Img : Type} (s : String) : Record Img :=
  { input := some s, error := some "Invalid URL or file path" }

/-- The input-partitioning loop of `process_urls_or_paths` (lines 44-66):
strips each input, skips blanks, collects URLs and valid paths in input
order, and writes an error record into the dict for each invalid input. -/
def classifyInputs {Img : Type} (env : Env Img) :
    List String → Dict Img → List String × List String × Dict Img
  | [], d => ([], [], d)
  | s :: rest, d =>
    let s' := pyStrip s
    if s' = "" then classifyInputs env rest d
    else if is_valid_url s' then
      let c := classifyInputs env rest d
      (s' :: c.1, c.2.1, c.2.2)
    else if is_valid_path env s' then
      let c := classifyInputs env rest d
      (c.1, s' :: c.2.1, c.2.2)
    else classifyInputs env rest (dset d s' (invalidRecord s'))

/-- Body of the per-URL try/except in `process_urls_or_paths` (lines 82-99). -/
def urlRecord {Img : Type} (env : Env Img) (url : String) : Record Img :=
  match env.fetchUrl url with
  | .error e => { url := some url, error := some e }
  | .ok img =>
    match env.processImage img with
    | .ok ts => { url := some url, tags := some ts.1, scores := some ts.2, image := some img }
    | .error e => { url := some url, error := some e }

/-- The URL loop of `process_urls_or_paths` (lines 73-99). Returns the
updated dict, the final `processed_count`, and the trace of
`(processed_count, total_items)` arguments passed to the progress callback.
The callback runs before the item is fetched; a stop signal breaks out. -/
def urlsLoop {Img : Type} (env : Env Img) (cb : Option (Nat → Nat → Bool))
    (total : Nat) : List String → Nat → Dict Img →
    Dict Img × Nat × List (Nat × Nat)
  | [], count, d => (d, count, [])
  | u :: rest, count, d =>
    let count' := count + 1
    match cb with
    | some f =>
      if f count' total then
        let r := urlsLoop env cb total rest count' (dset d u (urlRecord env u))
        (r.1, r.2.1, (count', total) :: r.2.2)
      else (d, count', [(count', total)])
    | none => urlsLoop env cb total rest count' (dset d u (urlRecord env u))

/-- The image-loading loop over one batch (lines 114-125). Returns the
loaded `(path, image)` pairs, the `(path, error)` pairs, the final count,
the callback trace, and whether processing should continue. A stop signal
breaks before the current item is opened. -/
def loadBatch {Img : Type} (env : Env Img) (cb : Option (Nat → Nat → Bool))
    (total : Nat) : List String → Nat →
    List (String × Img) × List (String × String) × Nat × List (Nat × Nat) × Bool
  | [], count => ([], [], count, [], true)
  | fp :: rest, count =>
    let count' := count + 1
    match cb with
    | some f =>
      if f count' total then
        match env.openImage fp with
        | .ok img =>
          let z := loadBatch env cb total rest count'
          ((fp, img) :: z.1, z.2.1, z.2.2.1, (count', total) :: z.2.2.2.1, z.2.2.2.2)
        | .error e =>
          let z := loadBatch env cb total rest count'
          (z.1, (fp, e) :: z.2.1, z.2.2.1, (count', total) :: z.2.2.2.1, z.2.2.2.2)
      else ([], [], count', [(count', total)], false)
    | none =>
      match env.openImage fp with
      | .ok img =>
        let z := loadBatch env cb total rest count'
        ((fp, img) :: z.1, z.2.1, z.2.2.1, z.2.2.2.1, z.2.2.2.2)
      | .error e =>
        let z := loadBatch env cb total rest count'
        (z.1, (fp, e) :: z.2.1, z.2.2.1, z.2.2.2.1, z.2.2.2.2)

/-- Recording of individual image-loading errors (lines 127-133). -/
def storeBatchErrors {Img : Type} (d : Dict Img)
    (errs : List (String × String)) : Dict Img :=
  errs.foldl (fun d pe =>
    dset d pe.1 { path := some pe.1, filename := some (basename pe.1), error := some pe.2 }) d

/-- Recording of successful batch results (lines 147-155), over the pairing
of loaded `(path, image)` items with classifier `(tags, scores)` results. -/
def storeBatchSuccess {Img : Type} (d : Dict Img)
    (l : List ((String × Img) × (String × List Int))) : Dict Img :=
  l.foldl (fun d x =>
    dset d x.1.1 { path := some x.1.1, filename := some (basename x.1.1),
                   tags := some x.2.1, scores := some x.2.2, image := some x.1.2 }) d

/-- Recording of a failed batch-classification call (lines 156-164): every
path of the batch gets the same error message. -/
def storeBatchFailure {Img : Type} (d : Dict Img) (paths : List String)
    (msg : String) : Dict Img :=
  paths.foldl (fun d p =>
    dset d p { path := some p, filename := some (basename p), error := some msg }) d

/-- Fuel-driven recursion splitting a list into batches of 8; the fuel is
only a structural-termination device and any fuel at least the list's length
gives the same result. -/
def chunks8Go : Nat → List String → List (List String)
  | _, [] => []
  | 0, _ :: _ => []
  | fuel + 1, x :: xs => ((x :: xs).take 8) :: chunks8Go fuel ((x :: xs).drop 8)

/-- Splitting of `file_paths` into batches of 8 (line 105, `batch_size = 8`). -/
def chunks8 (l : List String) : List (List String) :=
  chunks8Go l.length l

/-- Classification-and-recording step for one loaded batch (lines 139-164).
When the classifier returns more results than there are loaded paths the
Python write loop raises `IndexError` inside the `try`, so every path of the
batch ends up with a batch error record. -/
def classifyBatch {Img : Type} (env : Env Img) (d : Dict Img)
    (imgs : List (String × Img)) : Dict Img :=
  match env.processImages (imgs.map (·.2)) with
  | .ok rs =>
    if imgs.length < rs.length then
      storeBatchFailure (storeBatchSuccess d (imgs.zip rs)) (imgs.map (·.1))
        "Batch processing error: list index out of range"
    else storeBatchSuccess d (imgs.zip rs)
  | .error e =>
    storeBatchFailure d (imgs.map (·.1)) ("Batch processing error: " ++ e)

/-- The batched file-path loop of `process_urls_or_paths` (lines 101-170).
`continue_processing` starts out `True` (line 103) even if the URL loop was
cancelled. Loading errors of a batch are recorded even when the batch was
cancelled midway; loaded images of a cancelled batch are discarded. -/
def pathBatches {Img : Type} (env : Env Img) (cb : Option (Nat → Nat → Bool))
    (total : Nat) : List (List String) → Dict Img → Nat →
    Dict Img × Nat × List (Nat × Nat) × Bool
  | [], d, count => (d, count, [], true)
  | batch :: rest, d, count =>
    let z := loadBatch env cb total batch count
    let d' := storeBatchErrors d z.2.1
    if z.2.2.2.2 then
      let d'' := if z.1.isEmpty then d' else classifyBatch env d' z.1
      let pr := pathBatches env cb total rest d'' z.2.2.1
      (pr.1, pr.2.1, z.2.2.2.1 ++ pr.2.2.1, pr.2.2.2)
    else (d', z.2.2.1, z.2.2.2.1, false)

/-- The output-reassembly loop of `process_urls_or_paths` (lines 172-182):
replay the original inputs, skipping blanks, emitting the accumulated
record of each stripped input that has one. -/
def replay {Img : Type} : List String → Dict Img → List (Record Img)
  | [], _ => []
  | s :: rest, d =>
    let s' := pyStrip s
    if s' = "" then replay rest d
    else
      match dget d s' with
      | some r => r :: replay rest d
      | none => replay rest d

/-- `process_urls_or_paths` (lines 31-182), instrumented to also return the
trace of arguments passed to the progress callback. -/
def process_urls_or_paths_t {Img : Type} (inputs : List String) (env : Env Img)
    (cb : Option (Nat → Nat → Bool)) : List (Record Img) × List (Nat × Nat) :=
  let cls := classifyInputs env inputs []
  let total_items := cls.1.length + cls.2.1.length
  let ul := urlsLoop env cb total_items cls.1 0 cls.2.2
  let pb := pathBatches env cb total_items (chunks8 cls.2.1) ul.1 ul.2.1
  (replay inputs pb.1, ul.2.2 ++ pb.2.2.1)

/-- `process_urls_or_paths` (lines 31-182). -/
def process_urls_or_paths {Img : Type} (inputs : List String) (env : Env Img)
    (cb : Option (Nat → Nat → Bool)) : List (Record Img) :=
  (process_urls_or_paths_t inputs env cb).1

/-- Number of items the progress callback counts against:
`total_items = len(urls) + len(file_paths)` (line 69). -/
def validTotal {Img : Type} (env : Env Img) (inputs : List String) : Nat :=
  (classifyInputs env inputs []).1.length + (classifyInputs env inputs []).2.1.length

/-- Body of the per-file try/except of `process_folder` (lines 208-230). -/
def folderRecord {Img : Type} (env : Env Img) (fn fp : String) : Record Img :=
  match env.openImage fp with
  | .ok img =>
    match env.processImage img with
    | .ok ts => { filename := some fn, path := some fp, tags := some ts.1,
                  scores := some ts.2, image := some img }
    | .error e => { filename := some fn, path := some fp, error := some e }
  | .error e => { filename := some fn, path := some fp, error := some e }

/-- The per-file loop of `process_folder` (lines 205-230): the progress
callback runs (inside the per-file `try`) before the file is opened; a stop
signal breaks out. -/
def folderLoop {Img : Type} (env : Env Img) (cb : Option (Nat → Nat → Bool))
    (total : Nat) : List (String × String) → Nat → List (Record Img)
  | [], _ => []
  | (fn, fp) :: rest, i =>
    match cb with
    | some f =>
      if f (i + 1) total then folderRecord env fn fp :: folderLoop env cb total rest (i + 1)
      else []
    | none => folderRecord env fn fp :: folderLoop env cb total rest (i + 1)

/-- `process_folder` (lines 184-234). A listing failure is the folder-level
error caught by the outer `except` (lines 231-232). -/
def process_folder {Img : Type} (folder_path : String) (env : Env Img)
    (cb : Option (Nat → Nat → Bool)) : List (Record Img) :=
  match env.listdir folder_path with
  | .error e => [{ error := some ("Error processing folder: " ++ e) }]
  | .ok files =>
    let image_files := files.filterMap (fun fn =>
      let fp := folder_path ++ "/" ++ fn
      if env.isfile fp && get_supported_extensions.contains (pyLower (extOf fn))
      then some (fn, fp) else none)
    folderLoop env cb image_files.length image_files 0

/-- `process_single_url`, the worker of `process_urls` (lines 256-283);
rate limiting only sleeps and does not affect the returned record. -/
def process_single_url {Img : Type} (env : Env Img) (url : String) : Record Img :=
  match env.fetchUrl url with
  | .error e => { url := some url, error := some e }
  | .ok img =>
    match env.processImage img with
    | .ok ts => { url := some url, tags := some ts.1, scores := some ts.2, image := some img }
    | .error e => { url := some url, error := some e }

/-- The `as_completed` consumption loop of `process_urls` (lines 289-304):
`order` lists the indices of the submitted URLs in the order their futures
complete; results are appended in that order. The callback runs before each
append; a stop signal cancels the remaining futures and breaks. -/
def processUrlsGo {Img : Type} (env : Env Img) (urls : List String)
    (cb : Option (Nat → Nat → Bool)) : List Nat → Nat → List (Record Img)
  | [], _ => []
  | j :: rest, i =>
    match cb with
    | some f =>
      if f (i + 1) urls.length then
        process_single_url env (urls.getD j "") :: processUrlsGo env urls cb rest (i + 1)
      else []
    | none => process_single_url env (urls.getD j "") :: processUrlsGo env urls cb rest (i + 1)

/-- `process_urls` (lines 236-306). The thread pool's scheduling
nondeterminism is exposed as the completion order `order`. -/
def process_urls {Img : Type} (urls : List String) (env : Env Img)
    (cb : Option (Nat → Nat → Bool)) (order : List Nat) : List (Record Img) :=
  processUrlsGo env urls cb order 0

/-- `format_results_as_csv` (lines 308-326). -/
def format_results_as_csv {Img : Type} (results : List (Record Img)) : String :=
  pyJoin "\n" ("image_url;tags" :: results.map (fun r =>
    if r.error.isSome then
      (r.filename.getD (r.url.getD (r.input.getD "unknown"))) ++ ";ERROR: " ++ r.error.getD ""
    else
      (r.filename.getD (r.url.getD (r.path.getD "unknown"))) ++ ";" ++ r.tags.getD ""))

/-! ## Embedding of the tag-translation functions -/

/-- Split a comma-separated tag string into stripped, nonempty tags
(`[tag.strip() for tag in text.split(',') if tag.strip()]`, line 420,
and likewise line 435 for translations). -/
def tagsOf (text : String) : List String :=
  ((pySplit text ',').map pyStrip).filter (fun t => t ≠ "")

/-- The translation loop of `apply_translations` (lines 424-441), with the
`translated_tags` accumulator made explicit. -/
def translateFold (translations : List (String × String)) :
    List String → List String → List String
  | acc, [] => acc
  | acc, tag :: rest =>
    match List.lookup tag translations with
    | some translation =>
      if translation = "." then translateFold translations acc rest
      else translateFold translations (acc ++ tagsOf translation) rest
    | none => translateFold translations (acc ++ [tag]) rest

/-- `apply_translations` (lines 402-446). The translations dict is an
association list with first-match lookup (Python dict keys are unique). -/
def apply_translations (text : String) (translations : List (String × String)) : String :=
  if pyStrip text = "" then ""
  else
    let translated_tags := translateFold translations [] (tagsOf text)
    if translated_tags.isEmpty then "" else pyJoin ", " translated_tags

/-! ## Shape predicates on records -/

/-- A record is success-shaped (tags and scores, no error) or failure-shaped
(an error, no tags or scores). -/
def wellShaped {Img : Type} (r : Record Img) : Prop :=
  (r.tags.isSome ∧ r.scores.isSome ∧ r.error.isNone) ∨
  (r.error.isSome ∧ r.tags.isNone ∧ r.scores.isNone)

/-- The identifying source of a record: its `url`, else its `path`, else its
raw `input`. Every record stored by `process_urls_or_paths` is keyed in the
accumulator dict by exactly this string. -/
def keyOf {Img : Type} (r : Record Img) : Option String :=
  match r.url with
  | some u => some u
  | none =>
    match r.path with
    | some p => some p
    | none => r.input

/-! ## Concrete fixtures used by counterexamples and witnesses -/

/-- An environment in which every external operation succeeds: every path is
a file, the folder holds ten images, every fetch and decode yields an image,
and the classifier tags every image with `"tag"`. -/
def demoEnv : Env Nat :=
  { isfile := fun _ => true,
    listdir := fun _ => .ok ["f0.jpg", "f1.jpg", "f2.jpg", "f3.jpg", "f4.jpg",
                             "f5.jpg", "f6.jpg", "f7.jpg", "f8.jpg", "f9.jpg"],
    fetchUrl := fun _ => .ok 0,
    openImage := fun _ => .ok 1,
    processImage := fun _ => .ok ("tag", [1]),
    processImages := fun imgs => .ok (imgs.map (fun _ => ("tag", [1]))) }

/-- Environment whose directory listing fails. -/
def badFolderEnv : Env Nat :=
  { demoEnv with listdir := fun _ => .error "no such folder" }

/-- A progress callback returning the continue signal on its first two
invocations and the stop signal from the third on. -/
def cb3 : Nat → Nat → Bool := fun c _ => decide (c ≤ 2)

/-- Ten distinct processable URLs. -/
def tenUrls : List String :=
  ["http://u0", "http://u1", "http://u2", "http://u3", "http://u4",
   "http://u5", "http://u6", "http://u7", "http://u8", "http://u9"]

/-! ## C8: CSV export of two success records -/

/-- C8: given exactly two success records with sources `cat.jpg` and
`dog.jpg` and tags `cat, orange` and `dog, brown`, the CSV exporter returns
exactly the text `image_url;tags\ncat.jpg;cat, orange\ndog.jpg;dog, brown`. -/
theorem c8_csv_two_success_records :
    format_results_as_csv
      [({ filename := some "cat.jpg", tags := some "cat, orange", scores := some [] } : Record Nat),
       { filename := some "dog.jpg", tags := some "dog, brown", scores := some [] }] =
      "image_url;tags\ncat.jpg;cat, orange\ndog.jpg;dog, brown" := by
  rfl

/-! ## C7: folder-level failure of `process_folder` -/

/-- C7: if listing the folder fails, `process_folder` returns normally with a
single-element result set whose one record is an error record describing the
folder-level failure. -/
theorem c7_folder_level_error {Img : Type} (env : Env Img) (folder : String)
    (cb : Option (Nat → Nat → Bool)) (e : String)
    (h : env.listdir folder = .error e) :
    process_folder folder env cb =
      [{ error := some ("Error processing folder: " ++ e) }] := by
  simp [process_folder, h]

/-- Witness for C7 at a concrete failing environment. -/
theorem c7_folder_level_error_witness :
    process_folder "x" badFolderEnv none =
      [{ error := some ("Error processing folder: " ++ "no such folder") }] :=
  c7_folder_level_error badFolderEnv "x" none "no such folder" rfl

/-! ## C1: output order of `process_urls` -/

/-- C1 fails on the code: with two URLs whose fetches complete in reversed
order, `process_urls` returns the second URL's record first, so the i-th
record does not correspond to the i-th input URL. -/
theorem c1_counterexample :
    (process_urls ["http://a", "http://b"] demoEnv none [1, 0]).map (fun r => r.url) ≠
      [some "http://a", some "http://b"] := by
  decide

/-- With no cancellation, `processUrlsGo` maps the worker over the completion
order. -/
theorem processUrlsGo_none_eq_map {Img : Type} (env : Env Img) (urls : List String) :
    ∀ (order : List Nat) (i : Nat),
      processUrlsGo env urls none order i =
        order.map (fun j => process_single_url env (urls.getD j "")) := by
  intro order
  induction order with
  | nil => intro i; rfl
  | cons j rest ih => intro i; simp [processUrlsGo, ih]

/-- Indexing a list by `List.range` of its length recovers the list. -/
theorem map_getD_range {α : Type} (d : α) :
    ∀ l : List α, (List.range l.length).map (fun j => l.getD j d) = l := by
  intro l
  induction l with
  | nil => rfl
  | cons a t ih =>
    rw [List.length_cons, List.range_succ_eq_map, List.map_cons, List.map_map]
    refine congrArg (a :: ·) ?_
    have : ((fun j => (a :: t).getD j d) ∘ Nat.succ) = fun j => t.getD j d := by
      funext j
      simp [List.getD_cons_succ]
    rw [this, ih]

/-- C1 amended: `process_urls` returns its records in fetch *completion*
order — the record list is the worker mapped over the completion order — and
output order equals input order exactly when the completion order is the
identity permutation. -/
theorem c1_amended_completion_order {Img : Type} (urls : List String)
    (env : Env Img) (order : List Nat) :
    process_urls urls env none order =
        order.map (fun j => process_single_url env (urls.getD j "")) ∧
      (order = List.range urls.length →
        process_urls urls env none order = urls.map (process_single_url env)) := by
  constructor
  · exact processUrlsGo_none_eq_map env urls order 0
  · intro h
    rw [h, process_urls, processUrlsGo_none_eq_map env urls]
    rw [show (fun j => process_single_url env (urls.getD j "")) =
        (process_single_url env) ∘ (fun j => urls.getD j "") from rfl]
    rw [← List.map_map, map_getD_range]

/-- Witness for C1's amended statement: identity completion order yields
input order. -/
theorem c1_amended_witness :
    process_urls ["http://a", "http://b"] demoEnv none (List.range 2) =
      ["http://a", "http://b"].map (process_single_url demoEnv) :=
  (c1_amended_completion_order ["http://a", "http://b"] demoEnv (List.range 2)).2 rfl

/-! ## C2: cancellation after the third progress call -/

/-- C2 fails on the code: the progress callback runs *before* each item is
processed, so a stop signal on the third invocation leaves only 2 records,
not 3 — for both `process_urls_or_paths` and `process_folder`. -/
theorem c2_counterexample :
    (process_urls_or_paths tenUrls demoEnv (some cb3)).length ≠ 3 ∧
      (process_folder "d" demoEnv (some cb3)).length ≠ 3 := by
  decide

/-- C2 amended: `on_progress(completed, total)` is invoked before each item
is processed; with 10 processable items and a callback that continues on its
first two invocations and stops on the third, both entry points return
exactly 2 records — the first 2 items in processing order. -/
theorem c2_amended_two_records :
    process_urls_or_paths tenUrls demoEnv (some cb3) =
        [{ url := some "http://u0", tags := some "tag", scores := some [1], image := some 0 },
         { url := some "http://u1", tags := some "tag", scores := some [1], image := some 0 }] ∧
      process_folder "d" demoEnv (some cb3) =
        [{ filename := some "f0.jpg", path := some "d/f0.jpg", tags := some "tag",
           scores := some [1], image := some 1 },
         { filename := some "f1.jpg", path := some "d/f1.jpg", tags := some "tag",
           scores := some [1], image := some 1 }] := by
  decide

/-! ## C9: idempotence of `apply_translations`

The key invariant is that every tag produced by `apply_translations` is
*clean*: nonempty, comma-free and already stripped. Splitting the
comma-and-space join of clean tags recovers exactly those tags, so a second
pass in which no tag matches a translation key reproduces the string. -/

/-- A tag as produced by the tag-splitting step: nonempty, containing no
comma, and invariant under stripping. -/
def cleanTag (t : String) : Prop :=
  t ≠ "" ∧ ',' ∉ t.data ∧ pyStrip t = t

theorem stripChars_eq_rdrop (l : List Char) :
    stripChars l = (l.dropWhile isPySpace).rdropWhile isPySpace := rfl

theorem stripChars_subset (l : List Char) : stripChars l ⊆ l := by
  rw [stripChars_eq_rdrop]
  exact fun x hx =>
    (List.dropWhile_suffix _).subset ((List.rdropWhile_prefix _ _).subset hx)

/-- If stripping is a no-op, so is dropping leading whitespace. -/
theorem dropWhile_eq_self_of_stripChars (x : List Char) (h : stripChars x = x) :
    x.dropWhile isPySpace = x := by
  have h1 : (x.dropWhile isPySpace).length ≤ x.length :=
    (List.dropWhile_suffix _).length_le
  rw [stripChars_eq_rdrop] at h
  have h2 : ((x.dropWhile isPySpace).rdropWhile isPySpace).length ≤
      (x.dropWhile isPySpace).length :=
    (List.rdropWhile_prefix _ _).length_le
  have h3 := congrArg List.length h
  exact (List.dropWhile_suffix _).eq_of_length (by omega)

/-- The head of a stripped nonempty list is not whitespace. -/
theorem head_not_space_of_stripChars (a : Char) (m : List Char)
    (h : stripChars (a :: m) = a :: m) : isPySpace a = false := by
  have hd := dropWhile_eq_self_of_stripChars _ h
  by_contra hcontra
  have hpa : isPySpace a = true := by
    revert hcontra
    cases isPySpace a <;> simp
  rw [List.dropWhile_cons_of_pos hpa] at hd
  have h1 := congrArg List.length hd
  have h2 : (m.dropWhile isPySpace).length ≤ m.length :=
    (List.dropWhile_suffix _).length_le
  simp at h1
  omega

theorem stripChars_idem (l : List Char) : stripChars (stripChars l) = stripChars l := by
  rw [stripChars_eq_rdrop, stripChars_eq_rdrop]
  have hdropA : (l.dropWhile isPySpace).dropWhile isPySpace = l.dropWhile isPySpace :=
    List.dropWhile_idempotent _ _
  have hpre := List.rdropWhile_prefix isPySpace (l.dropWhile isPySpace)
  have hfix : ((l.dropWhile isPySpace).rdropWhile isPySpace).dropWhile isPySpace =
      (l.dropWhile isPySpace).rdropWhile isPySpace := by
    cases hR : (l.dropWhile isPySpace).rdropWhile isPySpace with
    | nil => simp
    | cons a t =>
      obtain ⟨r, hr⟩ := hpre
      rw [hR] at hr
      have hpa : ¬isPySpace a = true := by
        rw [← hr] at hdropA
        intro hpa
        rw [List.cons_append, List.dropWhile_cons_of_pos hpa] at hdropA
        have h1 := congrArg List.length hdropA
        have h2 : ((t ++ r).dropWhile isPySpace).length ≤ (t ++ r).length :=
          (List.dropWhile_suffix _).length_le
        rw [List.length_cons] at h1
        omega
      rw [List.dropWhile_cons_of_neg hpa]
  rw [hfix, List.rdropWhile_idempotent]

/-- Stripping a stripped list with one extra leading space recovers the list. -/
theorem stripChars_space_cons (x : List Char) (h : stripChars x = x) :
    stripChars (' ' :: x) = x := by
  have hd := dropWhile_eq_self_of_stripChars x h
  rw [stripChars_eq_rdrop, List.dropWhile_cons_of_pos (by decide), hd]
  rw [stripChars_eq_rdrop, hd] at h
  exact h

/-- Chunks produced by splitting on `c` never contain `c`. -/
theorem not_mem_of_mem_splitChars {c : Char} :
    ∀ {l m : List Char}, m ∈ splitChars c l → c ∉ m := by
  intro l
  induction l with
  | nil =>
    intro m hm
    simp only [splitChars, List.mem_singleton] at hm
    subst hm
    simp
  | cons x xs ih =>
    intro m hm
    simp only [splitChars] at hm
    by_cases hx : x = c
    · rw [if_pos hx] at hm
      rcases List.mem_cons.mp hm with h | h
      · subst h; simp
      · exact ih h
    · rw [if_neg hx] at hm
      cases hsp : splitChars c xs with
      | nil =>
        rw [hsp] at hm
        simp only [List.mem_singleton] at hm
        subst hm
        simp [Ne.symm hx]
      | cons h t =>
        rw [hsp] at hm
        rcases List.mem_cons.mp hm with hm' | hm'
        · subst hm'
          intro hc
          rcases List.mem_cons.mp hc with hc' | hc'
          · exact hx hc'.symm
          · exact ih (hsp ▸ List.mem_cons_self h t) hc'
        · exact ih (hsp ▸ List.mem_cons_of_mem h hm')

/-- Splitting a comma-free list yields just that list. -/
theorem splitChars_of_not_mem {c : Char} :
    ∀ {m : List Char}, c ∉ m → splitChars c m = [m] := by
  intro m
  induction m with
  | nil => intro _; rfl
  | cons x xs ih =>
    intro h
    have hx : ¬x = c := fun hxc => h (hxc ▸ List.mem_cons_self x xs)
    have hxs : c ∉ xs := fun hc => h (List.mem_cons_of_mem x hc)
    simp only [splitChars, if_neg hx, ih hxs]

/-- Splitting past a leading comma-free chunk. -/
theorem splitChars_append {c : Char} :
    ∀ {m : List Char}, c ∉ m → ∀ r, splitChars c (m ++ c :: r) = m :: splitChars c r := by
  intro m
  induction m with
  | nil =>
    intro _ r
    simp [splitChars]
  | cons x xs ih =>
    intro h r
    have hx : ¬x = c := fun hxc => h (hxc ▸ List.mem_cons_self x xs)
    have hxs : c ∉ xs := fun hc => h (List.mem_cons_of_mem x hc)
    rw [List.cons_append]
    simp only [splitChars, if_neg hx]
    rw [ih hxs r]

/-- Splitting the `", "`-join of comma-free chunks recovers the chunks, the
later ones with the separator's space still attached. -/
theorem splitChars_joinChars (c₀ : List Char) :
    ∀ (css : List (List Char)), ',' ∉ c₀ → (∀ cs ∈ css, ',' ∉ cs) →
      splitChars ',' (joinChars [',', ' '] (c₀ :: css)) =
        c₀ :: css.map (' ' :: ·) := by
  intro css
  induction css generalizing c₀ with
  | nil =>
    intro h₀ _
    simp only [joinChars, List.map_nil]
    exact splitChars_of_not_mem h₀
  | cons c₁ css' ih =>
    intro h₀ h
    have h₁ : ',' ∉ c₁ := h c₁ (List.mem_cons_self _ _)
    have h' : ∀ cs ∈ css', ',' ∉ cs := fun cs hcs => h cs (List.mem_cons_of_mem _ hcs)
    have hjoin : joinChars [',', ' '] (c₀ :: c₁ :: css') =
        c₀ ++ ',' :: ' ' :: joinChars [',', ' '] (c₁ :: css') := by
      simp [joinChars]
    rw [hjoin, splitChars_append h₀]
    have hrec := ih c₁ h₁ h'
    have hsp : (' ' : Char) ≠ ',' := by decide
    simp only [splitChars, if_neg hsp]
    rw [hrec]
    simp

/-- The tag-splitting step inverts the `", "`-join on clean tags. -/
theorem tagsOf_pyJoin (ts : List String) (h : ∀ t ∈ ts, cleanTag t) :
    tagsOf (pyJoin ", " ts) = ts := by
  cases ts with
  | nil => rfl
  | cons t₀ ts' =>
    have h₀ := h t₀ (List.mem_cons_self _ _)
    have hdata : (pyJoin ", " (t₀ :: ts')).data =
        joinChars [',', ' '] (t₀.data :: ts'.map String.data) := by
      simp [pyJoin]
    have hnc : ∀ t ∈ t₀ :: ts', ',' ∉ t.data := fun t ht => (h t ht).2.1
    have hsplit := splitChars_joinChars t₀.data (ts'.map String.data)
      (hnc t₀ (List.mem_cons_self _ _))
      (by
        intro cs hcs
        rw [List.mem_map] at hcs
        obtain ⟨t, ht, rfl⟩ := hcs
        exact hnc t (List.mem_cons_of_mem _ ht))
    have hstrip' : ∀ t ∈ ts', pyStrip (⟨' ' :: t.data⟩ : String) = t := by
      intro t ht
      have hct := h t (List.mem_cons_of_mem _ ht)
      have hd : stripChars t.data = t.data := congrArg String.data hct.2.2
      show (⟨stripChars (' ' :: t.data)⟩ : String) = t
      rw [stripChars_space_cons t.data hd]
    have htail : ∀ us : List String, (∀ t ∈ us, pyStrip (⟨' ' :: t.data⟩ : String) = t) →
        List.map pyStrip (List.map (⟨·⟩) (List.map (' ' :: ·) (List.map String.data us))) = us := by
      intro us hus
      induction us with
      | nil => rfl
      | cons u us ihu =>
        simp only [List.map_cons]
        rw [hus u (List.mem_cons_self _ _),
          ihu (fun t ht => hus t (List.mem_cons_of_mem _ ht))]
    unfold tagsOf pySplit
    rw [hdata, hsplit]
    rw [List.map_cons, List.map_cons]
    rw [show pyStrip (⟨t₀.data⟩ : String) = t₀ from h₀.2.2]
    rw [htail ts' hstrip']
    rw [List.filter_eq_self.mpr]
    intro a ha
    simp only [ne_eq, decide_eq_true_eq]
    exact (h a ha).1

/-- The join of clean tags does not strip to the empty string. -/
theorem pyStrip_pyJoin_ne (t₀ : String) (ts : List String) (h₀ : cleanTag t₀) :
    pyStrip (pyJoin ", " (t₀ :: ts)) ≠ "" := by
  intro hcontra
  have hdata : stripChars (pyJoin ", " (t₀ :: ts)).data = [] :=
    congrArg String.data hcontra
  obtain ⟨r, hr⟩ : ∃ r, (pyJoin ", " (t₀ :: ts)).data = t₀.data ++ r := by
    cases ts with
    | nil => exact ⟨[], by simp [pyJoin, joinChars]⟩
    | cons t₁ ts' =>
      refine ⟨',' :: ' ' :: joinChars [',', ' '] (t₁.data :: ts'.map String.data), ?_⟩
      simp [pyJoin, joinChars]
  have hne : t₀.data ≠ [] := by
    intro hnil
    exact h₀.1 (by cases t₀; simp_all)
  obtain ⟨a, m, hm⟩ : ∃ a m, t₀.data = a :: m := by
    cases ht : t₀.data with
    | nil => exact absurd ht hne
    | cons a m => exact ⟨a, m, rfl⟩
  have hstr : stripChars t₀.data = t₀.data := congrArg String.data h₀.2.2
  have hhead : isPySpace a = false := head_not_space_of_stripChars a m (hm ▸ hstr)
  rw [hr, hm, stripChars_eq_rdrop, List.cons_append,
    List.dropWhile_cons_of_neg (by simp [hhead])] at hdata
  rw [List.rdropWhile_eq_nil_iff] at hdata
  have := hdata a (List.mem_cons_self _ _)
  rw [hhead] at this
  exact absurd this (by simp)

theorem translateFold_nil (d : List (String × String)) (acc : List String) :
    translateFold d acc [] = acc := rfl

theorem translateFold_none (d : List (String × String)) (acc : List String)
    (t : String) (ts : List String) (h : List.lookup t d = none) :
    translateFold d acc (t :: ts) = translateFold d (acc ++ [t]) ts := by
  simp [translateFold, h]

theorem translateFold_some_del (d : List (String × String)) (acc : List String)
    (t : String) (ts : List String) (tr : String)
    (h : List.lookup t d = some tr) (h2 : tr = ".") :
    translateFold d acc (t :: ts) = translateFold d acc ts := by
  simp [translateFold, h, h2]

theorem translateFold_some (d : List (String × String)) (acc : List String)
    (t : String) (ts : List String) (tr : String)
    (h : List.lookup t d = some tr) (h2 : ¬tr = ".") :
    translateFold d acc (t :: ts) = translateFold d (acc ++ tagsOf tr) ts := by
  simp [translateFold, h, h2]

/-- Every element of `tagsOf` output is clean. -/
theorem cleanTag_of_mem_tagsOf (s : String) : ∀ t ∈ tagsOf s, cleanTag t := by
  intro t ht
  unfold tagsOf pySplit at ht
  rw [List.mem_filter] at ht
  obtain ⟨hmem, hne⟩ := ht
  rw [List.map_map, List.mem_map] at hmem
  obtain ⟨chunk, hchunk, rfl⟩ := hmem
  refine ⟨by simpa using hne, ?_, ?_⟩
  · intro hc
    exact not_mem_of_mem_splitChars hchunk (stripChars_subset chunk hc)
  · show (⟨stripChars (stripChars chunk)⟩ : String) = _
    rw [stripChars_idem]
    rfl

/-- Every element of the translation fold's output is clean. -/
theorem cleanTag_of_mem_translateFold (d : List (String × String)) :
    ∀ (ts acc : List String), (∀ a ∈ acc, cleanTag a) → (∀ t ∈ ts, cleanTag t) →
      ∀ x ∈ translateFold d acc ts, cleanTag x := by
  intro ts
  induction ts with
  | nil =>
    intro acc hacc _ x hx
    rw [translateFold_nil] at hx
    exact hacc x hx
  | cons t ts ih =>
    intro acc hacc hts x hx
    have hts' : ∀ u ∈ ts, cleanTag u := fun u hu => hts u (List.mem_cons_of_mem _ hu)
    cases hlk : List.lookup t d with
    | none =>
      rw [translateFold_none d acc t ts hlk] at hx
      refine ih _ ?_ hts' x hx
      intro a ha
      rcases List.mem_append.mp ha with h | h
      · exact hacc a h
      · rw [List.mem_singleton] at h
        exact h ▸ hts t (List.mem_cons_self _ _)
    | some tr =>
      by_cases htr : tr = "."
      · rw [translateFold_some_del d acc t ts tr hlk htr] at hx
        exact ih _ hacc hts' x hx
      · rw [translateFold_some d acc t ts tr hlk htr] at hx
        refine ih _ ?_ hts' x hx
        intro a ha
        rcases List.mem_append.mp ha with h | h
        · exact hacc a h
        · exact cleanTag_of_mem_tagsOf tr a h

/-- When no tag matches a translation key, the fold appends the tags
unchanged. -/
theorem translateFold_no_match (d : List (String × String)) :
    ∀ (ts acc : List String), (∀ t ∈ ts, List.lookup t d = none) →
      translateFold d acc ts = acc ++ ts := by
  intro ts
  induction ts with
  | nil => intro acc _; simp [translateFold_nil]
  | cons t ts ih =>
    intro acc h
    rw [translateFold_none d acc t ts (h t (List.mem_cons_self _ _)),
      ih _ (fun u hu => h u (List.mem_cons_of_mem _ hu))]
    simp

/-- C9: if one application of `apply_translations` leaves no tag that is a
key of the dictionary, a second application with the same dictionary returns
the same string. -/
theorem c9_apply_translations_idempotent (d : List (String × String)) (s : String)
    (h : ∀ t ∈ tagsOf (apply_translations s d), List.lookup t d = none) :
    apply_translations (apply_translations s d) d = apply_translations s d := by
  have happly_empty : apply_translations "" d = "" := rfl
  by_cases h0 : pyStrip s = ""
  · have hs : apply_translations s d = "" := by
      rw [apply_translations, if_pos h0]
    rw [hs]
    exact happly_empty
  · have hclean : ∀ t ∈ translateFold d [] (tagsOf s), cleanTag t :=
      cleanTag_of_mem_translateFold d (tagsOf s) [] (by simp)
        (cleanTag_of_mem_tagsOf s)
    have hs : apply_translations s d =
        if (translateFold d [] (tagsOf s)).isEmpty = true then ""
        else pyJoin ", " (translateFold d [] (tagsOf s)) := by
      simp only [apply_translations, if_neg h0]
    cases hc : translateFold d [] (tagsOf s) with
    | nil =>
      rw [hc] at hs
      simp only [List.isEmpty_nil, if_true] at hs
      rw [hs]
      exact happly_empty
    | cons t₀ ts' =>
      rw [hc] at hs hclean
      simp only [List.isEmpty_cons, Bool.false_eq_true, if_false] at hs
      have h₀ := hclean t₀ (List.mem_cons_self _ _)
      have htags := tagsOf_pyJoin (t₀ :: ts') hclean
      rw [hs] at h ⊢
      rw [htags] at h
      simp only [apply_translations, if_neg (pyStrip_pyJoin_ne t₀ ts' h₀)]
      rw [htags, translateFold_no_match d (t₀ :: ts') [] h]
      simp

/-- Witness for C9: translating `"anthro, unwanted, female"` with
`anthro ↦ anthropomorphic` and `unwanted ↦ .` leaves nothing further to
translate, and a second pass is the identity. -/
theorem c9_witness :
    apply_translations
        (apply_translations "anthro, unwanted, female"
          [("anthro", "anthropomorphic"), ("unwanted", ".")])
        [("anthro", "anthropomorphic"), ("unwanted", ".")] =
      apply_translations "anthro, unwanted, female"
        [("anthro", "anthropomorphic"), ("unwanted", ".")] :=
  c9_apply_translations_idempotent [("anthro", "anthropomorphic"), ("unwanted", ".")]
    "anthro, unwanted, female" (by decide)

/-! ## Accumulator-dict infrastructure

`DictAll Q d` says every `(key, record)` entry of the accumulator satisfies
`Q`. Each pipeline stage only ever adds entries through `dset`, so a
predicate holding of every written record is an invariant of the whole run. -/

/-- Every entry of the dict satisfies the predicate. -/
def DictAll {Img : Type} (Q : String → Record Img → Prop) (d : Dict Img) : Prop :=
  ∀ k r, (k, r) ∈ d → Q k r

theorem DictAll_nil {Img : Type} (Q : String → Record Img → Prop) :
    DictAll Q ([] : Dict Img) := by
  intro k r h
  simp at h

theorem DictAll_dset {Img : Type} {Q : String → Record Img → Prop} {d : Dict Img}
    {k : String} {v : Record Img} (h : DictAll Q d) (hv : Q k v) :
    DictAll Q (dset d k v) := by
  intro k' r' hm
  rcases List.mem_cons.mp hm with he | he
  · rw [Prod.mk.injEq] at he
    rw [he.1, he.2]
    exact hv
  · exact h k' r' he

/-- A successful lookup comes from an entry of the dict. -/
theorem dget_mem {Img : Type} : ∀ (d : Dict Img) (k : String) (r : Record Img),
    dget d k = some r → (k, r) ∈ d := by
  intro d
  induction d with
  | nil => intro k r h; simp [dget, List.lookup] at h
  | cons e d ih =>
    intro k r h
    obtain ⟨a, b⟩ := e
    simp only [dget, List.lookup] at h
    by_cases hk : k = a
    · subst hk
      simp only [beq_self_eq_true] at h
      cases h
      exact List.mem_cons_self _ _
    · simp only [beq_eq_false_iff_ne.mpr hk] at h
      exact List.mem_cons_of_mem _ (ih k r h)

theorem DictAll_storeBatchErrors {Img : Type} {Q : String → Record Img → Prop}
    (hQ : ∀ p e, Q p { path := some p, filename := some (basename p), error := some e }) :
    ∀ (errs : List (String × String)) (d : Dict Img),
      DictAll Q d → DictAll Q (storeBatchErrors d errs) := by
  intro errs
  induction errs with
  | nil => intro d h; exact h
  | cons pe errs ih => intro d h; exact ih _ (DictAll_dset h (hQ pe.1 pe.2))

theorem DictAll_storeBatchSuccess {Img : Type} {Q : String → Record Img → Prop}
    (hQ : ∀ p (i : Img) t sc,
      Q p { path := some p, filename := some (basename p), tags := some t,
            scores := some sc, image := some i }) :
    ∀ (l : List ((String × Img) × (String × List Int))) (d : Dict Img),
      DictAll Q d → DictAll Q (storeBatchSuccess d l) := by
  intro l
  induction l with
  | nil => intro d h; exact h
  | cons x l ih => intro d h; exact ih _ (DictAll_dset h (hQ x.1.1 x.1.2 x.2.1 x.2.2))

theorem DictAll_storeBatchFailure {Img : Type} {Q : String → Record Img → Prop}
    (msg : String)
    (hQ : ∀ p, Q p { path := some p, filename := some (basename p), error := some msg }) :
    ∀ (paths : List String) (d : Dict Img),
      DictAll Q d → DictAll Q (storeBatchFailure d paths msg) := by
  intro paths
  induction paths with
  | nil => intro d h; exact h
  | cons p paths ih => intro d h; exact ih _ (DictAll_dset h (hQ p))

theorem DictAll_classifyBatch {Img : Type} {Q : String → Record Img → Prop}
    (env : Env Img)
    (hQs : ∀ p (i : Img) t sc,
      Q p { path := some p, filename := some (basename p), tags := some t,
            scores := some sc, image := some i })
    (hQf : ∀ p msg, Q p { path := some p, filename := some (basename p), error := some msg }) :
    ∀ (imgs : List (String × Img)) (d : Dict Img),
      DictAll Q d → DictAll Q (classifyBatch env d imgs) := by
  intro imgs d h
  cases henv : env.processImages (imgs.map (·.2)) with
  | error e =>
    simp only [classifyBatch, henv]
    exact DictAll_storeBatchFailure _ (fun p => hQf p _) _ _ h
  | ok rs =>
    simp only [classifyBatch, henv]
    by_cases hlt : imgs.length < rs.length
    · rw [if_pos hlt]
      exact DictAll_storeBatchFailure _ (fun p => hQf p _) _ _
        (DictAll_storeBatchSuccess hQs _ _ h)
    · rw [if_neg hlt]
      exact DictAll_storeBatchSuccess hQs _ _ h

theorem DictAll_classifyInputs {Img : Type} {Q : String → Record Img → Prop}
    (env : Env Img) (hQ : ∀ s, Q s (invalidRecord s)) :
    ∀ (inputs : List String) (d : Dict Img),
      DictAll Q d → DictAll Q (classifyInputs env inputs d).2.2 := by
  intro inputs
  induction inputs with
  | nil => intro d h; exact h
  | cons s rest ih =>
    intro d h
    simp only [classifyInputs]
    by_cases h0 : pyStrip s = ""
    · rw [if_pos h0]
      exact ih d h
    · rw [if_neg h0]
      by_cases h1 : is_valid_url (pyStrip s)
      · rw [if_pos h1]
        exact ih d h
      · rw [if_neg h1]
        by_cases h2 : is_valid_path env (pyStrip s)
        · rw [if_pos h2]
          exact ih d h
        · rw [if_neg h2]
          exact ih _ (DictAll_dset h (hQ _))

theorem DictAll_urlsLoop {Img : Type} {Q : String → Record Img → Prop}
    (env : Env Img) (cb : Option (Nat → Nat → Bool)) (total : Nat)
    (hQ : ∀ u, Q u (urlRecord env u)) :
    ∀ (urls : List String) (count : Nat) (d : Dict Img),
      DictAll Q d → DictAll Q (urlsLoop env cb total urls count d).1 := by
  intro urls
  induction urls with
  | nil => intro c d h; exact h
  | cons u rest ih =>
    intro c d h
    cases cb with
    | none => exact ih _ _ (DictAll_dset h (hQ u))
    | some f =>
      simp only [urlsLoop]
      by_cases hf : f (c + 1) total
      · rw [if_pos hf]
        exact ih _ _ (DictAll_dset h (hQ u))
      · rw [if_neg hf]
        exact h

theorem DictAll_pathBatches {Img : Type} {Q : String → Record Img → Prop}
    (env : Env Img) (cb : Option (Nat → Nat → Bool)) (total : Nat)
    (hQs : ∀ p (i : Img) t sc,
      Q p { path := some p, filename := some (basename p), tags := some t,
            scores := some sc, image := some i })
    (hQf : ∀ p msg, Q p { path := some p, filename := some (basename p), error := some msg }) :
    ∀ (chunksL : List (List String)) (d : Dict Img) (count : Nat),
      DictAll Q d → DictAll Q (pathBatches env cb total chunksL d count).1 := by
  intro chunksL
  induction chunksL with
  | nil => intro d c h; exact h
  | cons batch rest ih =>
    intro d c h
    simp only [pathBatches]
    have herr : DictAll Q (storeBatchErrors d (loadBatch env cb total batch c).2.1) :=
      DictAll_storeBatchErrors (fun p e => hQf p e) _ _ h
    by_cases hz : (loadBatch env cb total batch c).2.2.2.2
    · rw [if_pos hz]
      by_cases hemp : (loadBatch env cb total batch c).1.isEmpty
      · rw [if_pos hemp]
        exact ih _ _ herr
      · rw [if_neg hemp]
        exact ih _ _ (DictAll_classifyBatch env hQs hQf _ _ herr)
    · rw [if_neg hz]
      exact herr

/-- Every record of a replayed output is looked up from the dict. -/
theorem mem_replay {Img : Type} : ∀ (inputs : List String) (d : Dict Img)
    (r : Record Img), r ∈ replay inputs d → ∃ k, dget d k = some r := by
  intro inputs
  induction inputs with
  | nil => intro d r h; simp [replay] at h
  | cons s rest ih =>
    intro d r h
    simp only [replay] at h
    by_cases h0 : pyStrip s = ""
    · rw [if_pos h0] at h
      exact ih d r h
    · rw [if_neg h0] at h
      cases hg : dget d (pyStrip s) with
      | none =>
        simp only [hg] at h
        exact ih d r h
      | some r' =>
        simp only [hg] at h
        rcases List.mem_cons.mp h with he | he
        · exact ⟨pyStrip s, he ▸ hg⟩
        · exact ih d r he

/-! ## C4: records are exclusively success- or failure-shaped -/

theorem wellShaped_urlRecord {Img : Type} (env : Env Img) (u : String) :
    wellShaped (urlRecord env u) := by
  cases hf : env.fetchUrl u with
  | error e => simp [urlRecord, wellShaped, hf]
  | ok img =>
    cases hp : env.processImage img with
    | ok ts => simp [urlRecord, wellShaped, hf, hp]
    | error e => simp [urlRecord, wellShaped, hf, hp]

theorem wellShaped_folderRecord {Img : Type} (env : Env Img) (fn fp : String) :
    wellShaped (folderRecord env fn fp) := by
  cases hf : env.openImage fp with
  | error e => simp [folderRecord, wellShaped, hf]
  | ok img =>
    cases hp : env.processImage img with
    | ok ts => simp [folderRecord, wellShaped, hf, hp]
    | error e => simp [folderRecord, wellShaped, hf, hp]

theorem wellShaped_process_single_url {Img : Type} (env : Env Img) (u : String) :
    wellShaped (process_single_url env u) := by
  cases hf : env.fetchUrl u with
  | error e => simp [process_single_url, wellShaped, hf]
  | ok img =>
    cases hp : env.processImage img with
    | ok ts => simp [process_single_url, wellShaped, hf, hp]
    | error e => simp [process_single_url, wellShaped, hf, hp]

theorem mem_folderLoop {Img : Type} (env : Env Img) (cb : Option (Nat → Nat → Bool))
    (total : Nat) : ∀ (files : List (String × String)) (i : Nat) (r : Record Img),
    r ∈ folderLoop env cb total files i → ∃ fn fp, r = folderRecord env fn fp := by
  intro files
  induction files with
  | nil => intro i r h; simp [folderLoop] at h
  | cons e files ih =>
    intro i r h
    obtain ⟨fn, fp⟩ := e
    cases cb with
    | none =>
      simp only [folderLoop] at h
      rcases List.mem_cons.mp h with he | he
      · exact ⟨fn, fp, he⟩
      · exact ih _ r he
    | some f =>
      simp only [folderLoop] at h
      by_cases hf : f (i + 1) total
      · rw [if_pos hf] at h
        rcases List.mem_cons.mp h with he | he
        · exact ⟨fn, fp, he⟩
        · exact ih _ r he
      · rw [if_neg hf] at h
        simp at h

theorem mem_processUrlsGo {Img : Type} (env : Env Img) (urls : List String)
    (cb : Option (Nat → Nat → Bool)) : ∀ (order : List Nat) (i : Nat) (r : Record Img),
    r ∈ processUrlsGo env urls cb order i → ∃ u, r = process_single_url env u := by
  intro order
  induction order with
  | nil => intro i r h; simp [processUrlsGo] at h
  | cons j rest ih =>
    intro i r h
    cases cb with
    | none =>
      simp only [processUrlsGo] at h
      rcases List.mem_cons.mp h with he | he
      · exact ⟨urls.getD j "", he⟩
      · exact ih _ r he
    | some f =>
      simp only [processUrlsGo] at h
      by_cases hf : f (i + 1) urls.length
      · rw [if_pos hf] at h
        rcases List.mem_cons.mp h with he | he
        · exact ⟨urls.getD j "", he⟩
        · exact ih _ r he
      · rw [if_neg hf] at h
        simp at h

/-- C4: every result record produced by the three entry points is either a
success record (tags and scores, no error) or a failure record (an error, no
tags or scores) — never both populated, never neither. -/
theorem c4_records_well_shaped {Img : Type} (env : Env Img) (inputs : List String)
    (cbA cbB cbC : Option (Nat → Nat → Bool)) (folder : String)
    (urls : List String) (order : List Nat) :
    (∀ r ∈ process_urls_or_paths inputs env cbA, wellShaped r) ∧
      (∀ r ∈ process_folder folder env cbB, wellShaped r) ∧
      (∀ r ∈ process_urls urls env cbC order, wellShaped r) := by
  refine ⟨?_, ?_, ?_⟩
  · intro r hr
    simp only [process_urls_or_paths, process_urls_or_paths_t] at hr
    obtain ⟨k, hk⟩ := mem_replay _ _ _ hr
    have h1 : DictAll (fun _ r => wellShaped r) (classifyInputs env inputs []).2.2 :=
      DictAll_classifyInputs env (fun s => Or.inr ⟨rfl, rfl, rfl⟩) inputs []
        (DictAll_nil _)
    have h2 : ∀ total count, DictAll (fun _ r => wellShaped r)
        (urlsLoop env cbA total (classifyInputs env inputs []).1 count
          (classifyInputs env inputs []).2.2).1 :=
      fun total count =>
        DictAll_urlsLoop env cbA total (fun u => wellShaped_urlRecord env u) _ count _ h1
    have h3 : ∀ total chunksL count, DictAll (fun _ r => wellShaped r)
        (pathBatches env cbA total chunksL
          (urlsLoop env cbA total (classifyInputs env inputs []).1 0
            (classifyInputs env inputs []).2.2).1 count).1 :=
      fun total chunksL count =>
        DictAll_pathBatches env cbA total
          (fun p i t sc => Or.inl ⟨rfl, rfl, rfl⟩)
          (fun p msg => Or.inr ⟨rfl, rfl, rfl⟩) chunksL _ count (h2 total 0)
    exact h3 _ _ _ _ _ (dget_mem _ _ _ hk)
  · intro r hr
    rw [process_folder] at hr
    cases hl : env.listdir folder with
    | error e =>
      rw [hl] at hr
      rcases List.mem_cons.mp hr with he | he
      · rw [he]
        exact Or.inr ⟨rfl, rfl, rfl⟩
      · simp at he
    | ok files =>
      rw [hl] at hr
      obtain ⟨fn, fp, rfl⟩ := mem_folderLoop env cbB _ _ _ _ hr
      exact wellShaped_folderRecord env fn fp
  · intro r hr
    obtain ⟨u, rfl⟩ := mem_processUrlsGo env urls cbC order 0 r hr
    exact wellShaped_process_single_url env u

/-- Witness for C4 at a concrete run of `process_urls_or_paths`. -/
theorem c4_witness :
    wellShaped
      ({ url := some "http://a", tags := some "tag",
         scores := some [1], image := some 0 } : Record Nat) :=
  (c4_records_well_shaped demoEnv ["http://a"] none none none "d" [] []).1 _ (by decide)

/-! ## C3: output order of `process_urls_or_paths`

Once a key has a record in the accumulator it keeps one (updates only
prepend), every non-blank input ends up with a record when no cancellation
occurs and the classifier is length-conformant, and every record is keyed by
its own source string; replaying the inputs therefore lists the records in
input order. -/

theorem dget_dset_self {Img : Type} (d : Dict Img) (k : String) (v : Record Img) :
    dget (dset d k v) k = some v := by
  simp [dget, dset, List.lookup]

theorem dget_isSome_dset {Img : Type} (d : Dict Img) (k k' : String) (v : Record Img)
    (h : (dget d k).isSome) : (dget (dset d k' v) k).isSome := by
  simp only [dget, dset, List.lookup]
  cases hk : k == k' with
  | true => simp
  | false => simpa [dget] using h

theorem dget_isSome_storeBatchErrors {Img : Type} :
    ∀ (errs : List (String × String)) (d : Dict Img) (k : String),
      (dget d k).isSome → (dget (storeBatchErrors d errs) k).isSome := by
  intro errs
  induction errs with
  | nil => intro d k h; exact h
  | cons pe errs ih => intro d k h; exact ih _ k (dget_isSome_dset _ _ _ _ h)

theorem dget_isSome_storeBatchSuccess {Img : Type} :
    ∀ (l : List ((String × Img) × (String × List Int))) (d : Dict Img) (k : String),
      (dget d k).isSome → (dget (storeBatchSuccess d l) k).isSome := by
  intro l
  induction l with
  | nil => intro d k h; exact h
  | cons x l ih => intro d k h; exact ih _ k (dget_isSome_dset _ _ _ _ h)

theorem dget_isSome_storeBatchFailure {Img : Type} (msg : String) :
    ∀ (paths : List String) (d : Dict Img) (k : String),
      (dget d k).isSome → (dget (storeBatchFailure d paths msg) k).isSome := by
  intro paths
  induction paths with
  | nil => intro d k h; exact h
  | cons p paths ih => intro d k h; exact ih _ k (dget_isSome_dset _ _ _ _ h)

theorem dget_isSome_classifyBatch {Img : Type} (env : Env Img)
    (imgs : List (String × Img)) (d : Dict Img) (k : String)
    (h : (dget d k).isSome) : (dget (classifyBatch env d imgs) k).isSome := by
  cases henv : env.processImages (imgs.map (·.2)) with
  | error e =>
    simp only [classifyBatch, henv]
    exact dget_isSome_storeBatchFailure _ _ _ _ h
  | ok rs =>
    simp only [classifyBatch, henv]
    by_cases hlt : imgs.length < rs.length
    · rw [if_pos hlt]
      exact dget_isSome_storeBatchFailure _ _ _ _ (dget_isSome_storeBatchSuccess _ _ _ h)
    · rw [if_neg hlt]
      exact dget_isSome_storeBatchSuccess _ _ _ h

theorem dget_isSome_urlsLoop {Img : Type} (env : Env Img)
    (cb : Option (Nat → Nat → Bool)) (total : Nat) :
    ∀ (urls : List String) (count : Nat) (d : Dict Img) (k : String),
      (dget d k).isSome → (dget (urlsLoop env cb total urls count d).1 k).isSome := by
  intro urls
  induction urls with
  | nil => intro c d k h; exact h
  | cons u rest ih =>
    intro c d k h
    cases cb with
    | none => exact ih _ _ k (dget_isSome_dset _ _ _ _ h)
    | some f =>
      simp only [urlsLoop]
      by_cases hf : f (c + 1) total
      · rw [if_pos hf]
        exact ih _ _ k (dget_isSome_dset _ _ _ _ h)
      · rw [if_neg hf]
        exact h

theorem dget_isSome_pathBatches {Img : Type} (env : Env Img)
    (cb : Option (Nat → Nat → Bool)) (total : Nat) :
    ∀ (chunksL : List (List String)) (d : Dict Img) (count : Nat) (k : String),
      (dget d k).isSome → (dget (pathBatches env cb total chunksL d count).1 k).isSome := by
  intro chunksL
  induction chunksL with
  | nil => intro d c k h; exact h
  | cons batch rest ih =>
    intro d c k h
    simp only [pathBatches]
    have herr : (dget (storeBatchErrors d (loadBatch env cb total batch c).2.1) k).isSome :=
      dget_isSome_storeBatchErrors _ _ k h
    by_cases hz : (loadBatch env cb total batch c).2.2.2.2
    · rw [if_pos hz]
      by_cases hemp : (loadBatch env cb total batch c).1.isEmpty
      · rw [if_pos hemp]
        exact ih _ _ k herr
      · rw [if_neg hemp]
        exact ih _ _ k (dget_isSome_classifyBatch env _ _ k herr)
    · rw [if_neg hz]
      exact herr

theorem dget_isSome_classifyInputs {Img : Type} (env : Env Img) :
    ∀ (inputs : List String) (d : Dict Img) (k : String),
      (dget d k).isSome → (dget (classifyInputs env inputs d).2.2 k).isSome := by
  intro inputs
  induction inputs with
  | nil => intro d k h; exact h
  | cons s rest ih =>
    intro d k h
    simp only [classifyInputs]
    by_cases h0 : pyStrip s = ""
    · rw [if_pos h0]; exact ih d k h
    · rw [if_neg h0]
      by_cases h1 : is_valid_url (pyStrip s)
      · rw [if_pos h1]; exact ih d k h
      · rw [if_neg h1]
        by_cases h2 : is_valid_path env (pyStrip s)
        · rw [if_pos h2]; exact ih d k h
        · rw [if_neg h2]; exact ih _ k (dget_isSome_dset _ _ _ _ h)

theorem storeBatchErrors_covers {Img : Type} :
    ∀ (errs : List (String × String)) (d : Dict Img) (p : String),
      p ∈ errs.map Prod.fst → (dget (storeBatchErrors d errs) p).isSome := by
  intro errs
  induction errs with
  | nil => intro d p h; simp at h
  | cons pe errs ih =>
    intro d p h
    rw [List.map_cons] at h
    rcases List.mem_cons.mp h with rfl | hmem
    · exact dget_isSome_storeBatchErrors errs _ _ (by rw [dget_dset_self]; rfl)
    · exact ih _ p hmem

theorem storeBatchSuccess_covers {Img : Type} :
    ∀ (l : List ((String × Img) × (String × List Int))) (d : Dict Img) (p : String),
      p ∈ l.map (fun x => x.1.1) → (dget (storeBatchSuccess d l) p).isSome := by
  intro l
  induction l with
  | nil => intro d p h; simp at h
  | cons x l ih =>
    intro d p h
    rw [List.map_cons] at h
    rcases List.mem_cons.mp h with rfl | hmem
    · exact dget_isSome_storeBatchSuccess l _ _ (by rw [dget_dset_self]; rfl)
    · exact ih _ p hmem

theorem storeBatchFailure_covers {Img : Type} (msg : String) :
    ∀ (paths : List String) (d : Dict Img) (p : String),
      p ∈ paths → (dget (storeBatchFailure d paths msg) p).isSome := by
  intro paths
  induction paths with
  | nil => intro d p h; simp at h
  | cons q paths ih =>
    intro d p h
    rcases List.mem_cons.mp h with rfl | hmem
    · exact dget_isSome_storeBatchFailure msg paths _ _ (by rw [dget_dset_self]; rfl)
    · exact ih _ p hmem

theorem classifyBatch_covers {Img : Type} (env : Env Img)
    (hconf : ∀ imgs rs, env.processImages imgs = .ok rs → rs.length = imgs.length) :
    ∀ (imgs : List (String × Img)) (d : Dict Img) (p : String),
      p ∈ imgs.map Prod.fst → (dget (classifyBatch env d imgs) p).isSome := by
  intro imgs d p hp
  cases henv : env.processImages (imgs.map (·.2)) with
  | error e =>
    simp only [classifyBatch, henv]
    exact storeBatchFailure_covers _ _ _ _ hp
  | ok rs =>
    simp only [classifyBatch, henv]
    have hlen : rs.length = imgs.length := by
      have := hconf _ _ henv
      simpa using this
    rw [if_neg (by omega)]
    apply storeBatchSuccess_covers
    have hfst : (imgs.zip rs).map (fun x => x.1.1) = imgs.map Prod.fst := by
      rw [show (fun x : (String × Img) × String × List Int => x.1.1) =
          (Prod.fst ∘ Prod.fst) from rfl]
      rw [← List.map_map, List.map_fst_zip _ _ (le_of_eq hlen.symm)]
    rw [hfst]
    exact hp

theorem urlsLoop_none_covers {Img : Type} (env : Env Img) (total : Nat) :
    ∀ (urls : List String) (count : Nat) (d : Dict Img) (u : String),
      u ∈ urls → (dget (urlsLoop env none total urls count d).1 u).isSome := by
  intro urls
  induction urls with
  | nil => intro c d u h; simp at h
  | cons v rest ih =>
    intro c d u h
    rcases List.mem_cons.mp h with rfl | hmem
    · exact dget_isSome_urlsLoop env none total rest _ _ _ (by rw [dget_dset_self]; rfl)
    · exact ih _ _ u hmem

/-- With no progress callback, loading a batch never cancels, produces no
trace, and sorts every path into the loaded images or the load errors. -/
theorem loadBatch_none {Img : Type} (env : Env Img) (total : Nat) :
    ∀ (batch : List String) (count : Nat),
      (loadBatch env none total batch count).2.2.2.2 = true ∧
        (loadBatch env none total batch count).2.2.2.1 = [] ∧
        ∀ p ∈ batch, p ∈ (loadBatch env none total batch count).1.map Prod.fst ∨
          p ∈ (loadBatch env none total batch count).2.1.map Prod.fst := by
  intro batch
  induction batch with
  | nil => intro c; exact ⟨rfl, rfl, by simp⟩
  | cons fp rest ih =>
    intro c
    cases ho : env.openImage fp with
    | ok img =>
      simp only [loadBatch, ho]
      obtain ⟨h1, h2, h3⟩ := ih (c + 1)
      refine ⟨h1, h2, ?_⟩
      intro p hp
      rcases List.mem_cons.mp hp with rfl | hmem
      · left
        exact List.mem_cons_self _ _
      · rcases h3 p hmem with h | h
        · left
          exact List.mem_cons_of_mem _ h
        · right
          exact h
    | error e =>
      simp only [loadBatch, ho]
      obtain ⟨h1, h2, h3⟩ := ih (c + 1)
      refine ⟨h1, h2, ?_⟩
      intro p hp
      rcases List.mem_cons.mp hp with rfl | hmem
      · right
        exact List.mem_cons_self _ _
      · rcases h3 p hmem with h | h
        · left
          exact h
        · right
          exact List.mem_cons_of_mem _ h

theorem chunks8Go_flatten :
    ∀ (fuel : Nat) (l : List String), l.length ≤ fuel → (chunks8Go fuel l).flatten = l := by
  intro fuel
  induction fuel with
  | zero =>
    intro l h
    cases l with
    | nil => rfl
    | cons x xs => simp at h
  | succ fuel ih =>
    intro l h
    cases l with
    | nil => rfl
    | cons x xs =>
      simp only [chunks8Go, List.flatten_cons]
      rw [ih _ (by rw [List.length_drop]; simp only [List.length_cons] at h ⊢; omega)]
      exact List.take_append_drop 8 (x :: xs)

theorem chunks8_flatten (l : List String) : (chunks8 l).flatten = l :=
  chunks8Go_flatten l.length l le_rfl

theorem pathBatches_none_covers {Img : Type} (env : Env Img) (total : Nat)
    (hconf : ∀ imgs rs, env.processImages imgs = .ok rs → rs.length = imgs.length) :
    ∀ (chunksL : List (List String)) (d : Dict Img) (count : Nat) (p : String),
      p ∈ chunksL.flatten →
      (dget (pathBatches env none total chunksL d count).1 p).isSome := by
  intro chunksL
  induction chunksL with
  | nil => intro d c p h; simp at h
  | cons batch rest ih =>
    intro d c p hp
    rw [List.flatten_cons, List.mem_append] at hp
    obtain ⟨h1, _h2, h3⟩ := loadBatch_none env total batch c
    simp only [pathBatches, h1, if_true]
    rcases hp with hp | hp
    · rcases h3 p hp with him | herr
      · have hne : ¬(loadBatch env none total batch c).1.isEmpty = true := by
          rw [List.isEmpty_iff]
          intro hnil
          rw [hnil] at him
          simp at him
        rw [if_neg hne]
        exact dget_isSome_pathBatches env none total rest _ _ p
          (classifyBatch_covers env hconf _ _ p him)
      · have hcov : (dget (storeBatchErrors d (loadBatch env none total batch c).2.1) p).isSome :=
          storeBatchErrors_covers _ _ p herr
        by_cases hemp : (loadBatch env none total batch c).1.isEmpty
        · rw [if_pos hemp]
          exact dget_isSome_pathBatches env none total rest _ _ p hcov
        · rw [if_neg hemp]
          exact dget_isSome_pathBatches env none total rest _ _ p
            (dget_isSome_classifyBatch env _ _ p hcov)
    · by_cases hemp : (loadBatch env none total batch c).1.isEmpty
      · rw [if_pos hemp]
        exact ih _ _ p hp
      · rw [if_neg hemp]
        exact ih _ _ p hp

/-- Every non-blank input is sorted into the URL bucket, the path bucket, or
an invalid-input record of the dict. -/
theorem classifyInputs_cover {Img : Type} (env : Env Img) :
    ∀ (inputs : List String) (d0 : Dict Img) (s : String), s ∈ inputs → pyStrip s ≠ "" →
      pyStrip s ∈ (classifyInputs env inputs d0).1 ∨
        pyStrip s ∈ (classifyInputs env inputs d0).2.1 ∨
        (dget (classifyInputs env inputs d0).2.2 (pyStrip s)).isSome := by
  intro inputs
  induction inputs with
  | nil => intro d0 s h; simp at h
  | cons a rest ih =>
    intro d0 s hs hne
    simp only [classifyInputs]
    by_cases h0 : pyStrip a = ""
    · rw [if_pos h0]
      rcases List.mem_cons.mp hs with rfl | hmem
      · exact absurd h0 hne
      · exact ih d0 s hmem hne
    · rw [if_neg h0]
      by_cases h1 : is_valid_url (pyStrip a)
      · rw [if_pos h1]
        rcases List.mem_cons.mp hs with rfl | hmem
        · left
          exact List.mem_cons_self _ _
        · rcases ih d0 s hmem hne with h | h | h
          · left
            exact List.mem_cons_of_mem _ h
          · right; left; exact h
          · right; right; exact h
      · rw [if_neg h1]
        by_cases h2 : is_valid_path env (pyStrip a)
        · rw [if_pos h2]
          rcases List.mem_cons.mp hs with rfl | hmem
          · right; left
            exact List.mem_cons_self _ _
          · rcases ih d0 s hmem hne with h | h | h
            · left; exact h
            · right; left
              exact List.mem_cons_of_mem _ h
            · right; right; exact h
        · rw [if_neg h2]
          rcases List.mem_cons.mp hs with rfl | hmem
          · right; right
            exact dget_isSome_classifyInputs env rest _ _ (by rw [dget_dset_self]; rfl)
          · exact ih _ s hmem hne

theorem keyOf_invalidRecord {Img : Type} (s : String) :
    keyOf (invalidRecord s : Record Img) = some s := rfl

theorem keyOf_batchSuccessRecord {Img : Type} (p : String) (i : Img) (t : String)
    (sc : List Int) :
    keyOf ({ path := some p, filename := some (basename p), tags := some t,
             scores := some sc, image := some i } : Record Img) = some p := rfl

theorem keyOf_batchErrorRecord {Img : Type} (p msg : String) :
    keyOf ({ path := some p, filename := some (basename p),
             error := some msg } : Record Img) = some p := rfl

theorem keyOf_urlRecord {Img : Type} (env : Env Img) (u : String) :
    keyOf (urlRecord env u) = some u := by
  cases hf : env.fetchUrl u with
  | error e => simp [urlRecord, keyOf, hf]
  | ok img =>
    cases hp : env.processImage img with
    | ok ts => simp [urlRecord, keyOf, hf, hp]
    | error e => simp [urlRecord, keyOf, hf, hp]

/-- Replaying inputs against a dict whose records are keyed by their own
source and which covers all non-blank inputs yields exactly one record per
non-blank input, in input order, keyed by that input. -/
theorem replay_map_keyOf {Img : Type} :
    ∀ (inputs : List String) (d : Dict Img),
      (∀ k r, (k, r) ∈ d → keyOf r = some k) →
      (∀ s ∈ inputs, pyStrip s ≠ "" → (dget d (pyStrip s)).isSome) →
      (replay inputs d).map keyOf =
        ((inputs.map pyStrip).filter (fun s => s ≠ "")).map some := by
  intro inputs
  induction inputs with
  | nil => intro d _ _; rfl
  | cons s rest ih =>
    intro d hkey hcov
    simp only [replay, List.map_cons, List.filter_cons]
    by_cases h0 : pyStrip s = ""
    · rw [if_pos h0]
      rw [if_neg (by simp [h0])]
      exact ih d hkey (fun u hu => hcov u (List.mem_cons_of_mem _ hu))
    · rw [if_neg h0]
      obtain ⟨r, hr⟩ := Option.isSome_iff_exists.mp
        (hcov s (List.mem_cons_self _ _) h0)
      simp only [hr]
      rw [if_pos (by simp [h0])]
      rw [List.map_cons, hkey _ _ (dget_mem _ _ _ hr)]
      rw [ih d hkey (fun u hu => hcov u (List.mem_cons_of_mem _ hu))]
      rfl

/-- C3: with no cancellation and a length-conformant batch classifier, the
result set of `process_urls_or_paths` has exactly one record per non-blank
input, in the order of the non-blank entries of the original input list,
each record keyed by its own (stripped) input string. -/
theorem c3_output_order {Img : Type} (env : Env Img) (inputs : List String)
    (hconf : ∀ imgs rs, env.processImages imgs = .ok rs → rs.length = imgs.length) :
    (process_urls_or_paths inputs env none).map keyOf =
      ((inputs.map pyStrip).filter (fun s => s ≠ "")).map some := by
  simp only [process_urls_or_paths, process_urls_or_paths_t]
  apply replay_map_keyOf
  · have h1 : DictAll (fun k r => keyOf r = some k) (classifyInputs env inputs []).2.2 :=
      DictAll_classifyInputs env (fun s => keyOf_invalidRecord s) inputs [] (DictAll_nil _)
    have h2 : ∀ total count, DictAll (fun k r => keyOf r = some k)
        (urlsLoop env none total (classifyInputs env inputs []).1 count
          (classifyInputs env inputs []).2.2).1 :=
      fun total count =>
        DictAll_urlsLoop env none total (fun u => keyOf_urlRecord env u) _ count _ h1
    have h3 : ∀ total chunksL count, DictAll (fun k r => keyOf r = some k)
        (pathBatches env none total chunksL
          (urlsLoop env none total (classifyInputs env inputs []).1 0
            (classifyInputs env inputs []).2.2).1 count).1 :=
      fun total chunksL count =>
        DictAll_pathBatches env none total
          (fun p i t sc => keyOf_batchSuccessRecord p i t sc)
          (fun p msg => keyOf_batchErrorRecord p msg) chunksL _ count (h2 total 0)
    exact fun k r hm => h3 _ _ _ k r hm
  · intro s hs hne
    rcases classifyInputs_cover env inputs [] s hs hne with h | h | h
    · exact dget_isSome_pathBatches env none _ _ _ _ _
        (urlsLoop_none_covers env _ (classifyInputs env inputs []).1 0 _ _ h)
    · apply pathBatches_none_covers env _ hconf
      rw [chunks8_flatten]
      exact h
    · exact dget_isSome_pathBatches env none _ _ _ _ _
        (dget_isSome_urlsLoop env none _ _ _ _ _ h)

/-- Witness for C3 at a concrete mixed input list under an all-success
environment. -/
theorem c3_witness :
    (process_urls_or_paths ["http://a", "", " b.jpg ", "??"] demoEnv none).map keyOf =
      (((["http://a", "", " b.jpg ", "??"].map pyStrip).filter
        (fun s => s ≠ "")).map some) :=
  c3_output_order demoEnv ["http://a", "", " b.jpg ", "??"]
    (fun imgs rs h => by
      injection h with h'
      rw [← h']
      simp)

/-! ## C10: progress-callback arguments -/

theorem urlsLoop_trace {Img : Type} (env : Env Img) (f : Nat → Nat → Bool) (total : Nat) :
    ∀ (urls : List String) (count : Nat) (d : Dict Img),
      (∀ p ∈ (urlsLoop env (some f) total urls count d).2.2, p.2 = total) ∧
        (urlsLoop env (some f) total urls count d).2.2.length ≤ urls.length := by
  intro urls
  induction urls with
  | nil =>
    intro c d
    exact ⟨by intro p hp; simp [urlsLoop] at hp, by simp [urlsLoop]⟩
  | cons u rest ih =>
    intro c d
    simp only [urlsLoop]
    by_cases hf : f (c + 1) total
    · rw [if_pos hf]
      constructor
      · intro p hp
        rcases List.mem_cons.mp hp with rfl | hm
        · rfl
        · exact (ih _ _).1 p hm
      · simp only [List.length_cons]
        exact Nat.succ_le_succ (ih _ _).2
    · rw [if_neg hf]
      constructor
      · intro p hp
        rcases List.mem_cons.mp hp with rfl | hm
        · rfl
        · simp at hm
      · simp

theorem loadBatch_trace {Img : Type} (env : Env Img) (f : Nat → Nat → Bool) (total : Nat) :
    ∀ (batch : List String) (count : Nat),
      (∀ p ∈ (loadBatch env (some f) total batch count).2.2.2.1, p.2 = total) ∧
        (loadBatch env (some f) total batch count).2.2.2.1.length ≤ batch.length := by
  intro batch
  induction batch with
  | nil =>
    intro c
    exact ⟨by intro p hp; simp [loadBatch] at hp, by simp [loadBatch]⟩
  | cons fp rest ih =>
    intro c
    simp only [loadBatch]
    by_cases hf : f (c + 1) total
    · rw [if_pos hf]
      cases ho : env.openImage fp with
      | ok img =>
        constructor
        · intro p hp
          rcases List.mem_cons.mp hp with rfl | hm
          · rfl
          · exact (ih _).1 p hm
        · simp only [List.length_cons]
          exact Nat.succ_le_succ (ih _).2
      | error e =>
        constructor
        · intro p hp
          rcases List.mem_cons.mp hp with rfl | hm
          · rfl
          · exact (ih _).1 p hm
        · simp only [List.length_cons]
          exact Nat.succ_le_succ (ih _).2
    · rw [if_neg hf]
      constructor
      · intro p hp
        rcases List.mem_cons.mp hp with rfl | hm
        · rfl
        · simp at hm
      · simp

theorem pathBatches_trace {Img : Type} (env : Env Img) (f : Nat → Nat → Bool) (total : Nat) :
    ∀ (chunksL : List (List String)) (d : Dict Img) (count : Nat),
      (∀ p ∈ (pathBatches env (some f) total chunksL d count).2.2.1, p.2 = total) ∧
        (pathBatches env (some f) total chunksL d count).2.2.1.length ≤
          chunksL.flatten.length := by
  intro chunksL
  induction chunksL with
  | nil =>
    intro d c
    exact ⟨by intro p hp; simp [pathBatches] at hp, by simp [pathBatches]⟩
  | cons batch rest ih =>
    intro d c
    simp only [pathBatches]
    obtain ⟨hmem, hlen⟩ := loadBatch_trace env f total batch c
    by_cases hz : (loadBatch env (some f) total batch c).2.2.2.2
    · rw [if_pos hz]
      dsimp only
      constructor
      · intro p hp
        rcases List.mem_append.mp hp with h | h
        · exact hmem p h
        · exact (ih _ _).1 p h
      · rw [List.length_append, List.flatten_cons, List.length_append]
        have h2 := (ih (if (loadBatch env (some f) total batch c).1.isEmpty then
            storeBatchErrors d (loadBatch env (some f) total batch c).2.1
          else classifyBatch env
            (storeBatchErrors d (loadBatch env (some f) total batch c).2.1)
            (loadBatch env (some f) total batch c).1)
          (loadBatch env (some f) total batch c).2.2.1).2
        omega
    · rw [if_neg hz]
      dsimp only
      constructor
      · exact hmem
      · rw [List.flatten_cons, List.length_append]
        omega

/-- C10: with a progress callback supplied, every invocation receives the
same `total_items`, equal to the number of non-blank inputs classified as
URLs or valid paths, and there are at most that many invocations — blank and
invalid inputs never trigger the callback. -/
theorem c10_progress_callback_totals {Img : Type} (env : Env Img)
    (inputs : List String) (f : Nat → Nat → Bool) :
    (∀ p ∈ (process_urls_or_paths_t inputs env (some f)).2,
        p.2 = validTotal env inputs) ∧
      (process_urls_or_paths_t inputs env (some f)).2.length ≤
        validTotal env inputs := by
  simp only [process_urls_or_paths_t, validTotal]
  constructor
  · intro p hp
    rcases List.mem_append.mp hp with h | h
    · exact (urlsLoop_trace env f _ _ _ _).1 p h
    · exact (pathBatches_trace env f _ _ _ _).1 p h
  · rw [List.length_append]
    have h1 := (urlsLoop_trace env f
      ((classifyInputs env inputs []).1.length + (classifyInputs env inputs []).2.1.length)
      (classifyInputs env inputs []).1 0 (classifyInputs env inputs []).2.2).2
    have h2 := (pathBatches_trace env f
      ((classifyInputs env inputs []).1.length + (classifyInputs env inputs []).2.1.length)
      (chunks8 (classifyInputs env inputs []).2.1)
      (urlsLoop env (some f)
        ((classifyInputs env inputs []).1.length + (classifyInputs env inputs []).2.1.length)
        (classifyInputs env inputs []).1 0 (classifyInputs env inputs []).2.2).1
      (urlsLoop env (some f)
        ((classifyInputs env inputs []).1.length + (classifyInputs env inputs []).2.1.length)
        (classifyInputs env inputs []).1 0 (classifyInputs env inputs []).2.2).2.1).2
    rw [chunks8_flatten] at h2
    omega

/-- Witness for C10: a mixed list with one URL, one invalid entry and one
path gives `total_items = 2` on every callback invocation. -/
theorem c10_witness :
    ((1, 2) : Nat × Nat).2 = validTotal demoEnv ["http://a", "bad??", "b.jpg"] ∧
      (process_urls_or_paths_t ["http://a", "bad??", "b.jpg"] demoEnv
        (some (fun _ _ => true))).2.length ≤
        validTotal demoEnv ["http://a", "bad??", "b.jpg"] :=
  ⟨(c10_progress_callback_totals demoEnv ["http://a", "bad??", "b.jpg"]
      (fun _ _ => true)).1 (1, 2) (by decide),
    (c10_progress_callback_totals demoEnv ["http://a", "bad??", "b.jpg"]
      (fun _ _ => true)).2⟩

/-! ## C5: one corrupt file among five valid paths -/

theorem dget_dset_ne {Img : Type} (d : Dict Img) (k k' : String) (v : Record Img)
    (h : k ≠ k') : dget (dset d k' v) k = dget d k := by
  simp only [dget, dset, List.lookup, beq_eq_false_iff_ne.mpr h]

theorem dget_storeBatchFailure_of_mem {Img : Type} (msg : String) :
    ∀ (paths : List String) (d : Dict Img) (p : String), p ∈ paths →
      dget (storeBatchFailure d paths msg) p =
        some { path := some p, filename := some (basename p), error := some msg } := by
  intro paths
  induction paths with
  | nil => intro d p h; simp at h
  | cons q paths ih =>
    intro d p h
    by_cases hm : p ∈ paths
    · exact ih _ p hm
    · have hq : p = q := by
        rcases List.mem_cons.mp h with h' | h'
        · exact h'
        · exact absurd h' hm
      subst hq
      have hun : ∀ (d' : Dict Img), dget (storeBatchFailure d' paths msg) p = dget d' p := by
        clear ih h
        induction paths with
        | nil => intro d'; rfl
        | cons a t iht =>
          intro d'
          have hpa : p ≠ a := fun hc => hm (hc ▸ List.mem_cons_self a t)
          have hpt : p ∉ t := fun hc => hm (List.mem_cons_of_mem a hc)
          rw [show storeBatchFailure d' (a :: t) msg =
              storeBatchFailure (dset d' a _) t msg from rfl]
          rw [iht hpt]
          exact dget_dset_ne _ _ _ _ hpa
      rw [show storeBatchFailure d (p :: paths) msg =
          storeBatchFailure (dset d p _) paths msg from rfl]
      rw [hun _, dget_dset_self]

/-- C5: five valid, distinct paths where opening the third raises and every
other step succeeds — the result has five records in input order, the third
an error record carrying the exception text, the other four success records
carrying the classifier's tags. One item's failure does not abort the batch. -/
theorem c5_corrupt_third_file {Img : Type} (env : Env Img)
    (p1 p2 p3 p4 p5 : String) (i1 i2 i4 i5 : Img)
    (t1 t2 t4 t5 : String) (s1 s2 s4 s5 : List Int) (e : String)
    (hvalid : ∀ p ∈ [p1, p2, p3, p4, p5],
      pyStrip p = p ∧ ¬p = "" ∧ is_valid_url p = false ∧ is_valid_path env p = true)
    (hnd : [p1, p2, p3, p4, p5].Nodup)
    (ho1 : env.openImage p1 = .ok i1) (ho2 : env.openImage p2 = .ok i2)
    (ho3 : env.openImage p3 = .error e)
    (ho4 : env.openImage p4 = .ok i4) (ho5 : env.openImage p5 = .ok i5)
    (hcl : env.processImages [i1, i2, i4, i5] =
      .ok [(t1, s1), (t2, s2), (t4, s4), (t5, s5)]) :
    process_urls_or_paths [p1, p2, p3, p4, p5] env none =
      [{ path := some p1, filename := some (basename p1), tags := some t1,
         scores := some s1, image := some i1 },
       { path := some p2, filename := some (basename p2), tags := some t2,
         scores := some s2, image := some i2 },
       { path := some p3, filename := some (basename p3), error := some e },
       { path := some p4, filename := some (basename p4), tags := some t4,
         scores := some s4, image := some i4 },
       { path := some p5, filename := some (basename p5), tags := some t5,
         scores := some s5, image := some i5 }] := by
  obtain ⟨hs1, hn1, hu1, hq1⟩ := hvalid p1 (by simp)
  obtain ⟨hs2, hn2, hu2, hq2⟩ := hvalid p2 (by simp)
  obtain ⟨hs3, hn3, hu3, hq3⟩ := hvalid p3 (by simp)
  obtain ⟨hs4, hn4, hu4, hq4⟩ := hvalid p4 (by simp)
  obtain ⟨hs5, hn5, hu5, hq5⟩ := hvalid p5 (by simp)
  simp only [List.nodup_cons, List.mem_cons, List.mem_singleton, not_or,
    List.nodup_nil, List.not_mem_nil, not_false_eq_true, and_true] at hnd
  obtain ⟨⟨h12, h13, h14, h15⟩, ⟨h23, h24, h25⟩, ⟨h34, h35⟩, h45⟩ := hnd
  have b12 : (p1 == p2) = false := beq_eq_false_iff_ne.mpr h12
  have b13 : (p1 == p3) = false := beq_eq_false_iff_ne.mpr h13
  have b14 : (p1 == p4) = false := beq_eq_false_iff_ne.mpr h14
  have b15 : (p1 == p5) = false := beq_eq_false_iff_ne.mpr h15
  have b21 : (p2 == p1) = false := beq_eq_false_iff_ne.mpr (Ne.symm h12)
  have b23 : (p2 == p3) = false := beq_eq_false_iff_ne.mpr h23
  have b24 : (p2 == p4) = false := beq_eq_false_iff_ne.mpr h24
  have b25 : (p2 == p5) = false := beq_eq_false_iff_ne.mpr h25
  have b31 : (p3 == p1) = false := beq_eq_false_iff_ne.mpr (Ne.symm h13)
  have b32 : (p3 == p2) = false := beq_eq_false_iff_ne.mpr (Ne.symm h23)
  have b34 : (p3 == p4) = false := beq_eq_false_iff_ne.mpr h34
  have b35 : (p3 == p5) = false := beq_eq_false_iff_ne.mpr h35
  have b41 : (p4 == p1) = false := beq_eq_false_iff_ne.mpr (Ne.symm h14)
  have b42 : (p4 == p2) = false := beq_eq_false_iff_ne.mpr (Ne.symm h24)
  have b43 : (p4 == p3) = false := beq_eq_false_iff_ne.mpr (Ne.symm h34)
  have b45 : (p4 == p5) = false := beq_eq_false_iff_ne.mpr h45
  have b51 : (p5 == p1) = false := beq_eq_false_iff_ne.mpr (Ne.symm h15)
  have b52 : (p5 == p2) = false := beq_eq_false_iff_ne.mpr (Ne.symm h25)
  have b53 : (p5 == p3) = false := beq_eq_false_iff_ne.mpr (Ne.symm h35)
  have b54 : (p5 == p4) = false := beq_eq_false_iff_ne.mpr (Ne.symm h45)
  have hch : chunks8 [p1, p2, p3, p4, p5] = [[p1, p2, p3, p4, p5]] := rfl
  simp [process_urls_or_paths, process_urls_or_paths_t, classifyInputs, urlsLoop,
    pathBatches, loadBatch, storeBatchErrors, storeBatchSuccess, storeBatchFailure,
    classifyBatch, replay, dget, dset, List.lookup, hch,
    hs1, hs2, hs3, hs4, hs5, hn1, hn2, hn3, hn4, hn5,
    hu1, hu2, hu3, hu4, hu5, hq1, hq2, hq3, hq4, hq5,
    ho1, ho2, ho3, ho4, ho5, hcl,
    b12, b13, b14, b15, b21, b23, b24, b25, b31, b32, b34, b35,
    b41, b42, b43, b45, b51, b52, b53, b54]

/-- Concrete environment for the C5 witness: the third file is corrupt. -/
def c5Env : Env Nat :=
  { demoEnv with
    openImage := fun p => if p = "c.jpg" then .error "corrupt" else .ok 1 }

/-- Witness for C5 at five concrete paths with the third corrupt. -/
theorem c5_witness :
    process_urls_or_paths ["a.jpg", "b.jpg", "c.jpg", "d.jpg", "e.jpg"] c5Env none =
      [{ path := some "a.jpg", filename := some (basename "a.jpg"), tags := some "tag",
         scores := some [1], image := some 1 },
       { path := some "b.jpg", filename := some (basename "b.jpg"), tags := some "tag",
         scores := some [1], image := some 1 },
       { path := some "c.jpg", filename := some (basename "c.jpg"), error := some "corrupt" },
       { path := some "d.jpg", filename := some (basename "d.jpg"), tags := some "tag",
         scores := some [1], image := some 1 },
       { path := some "e.jpg", filename := some (basename "e.jpg"), tags := some "tag",
         scores := some [1], image := some 1 }] :=
  c5_corrupt_third_file c5Env "a.jpg" "b.jpg" "c.jpg" "d.jpg" "e.jpg" 1 1 1 1
    "tag" "tag" "tag" "tag" [1] [1] [1] [1] "corrupt"
    (by decide) (by decide) rfl rfl rfl rfl rfl rfl

/-! ## C6: a failing batch-classification call -/

/-- C6: nine valid paths split into a batch of eight and a batch of one;
the eight-image classification call raises while the second batch succeeds.
Every item of the failing batch receives its own individual error record,
the failure is isolated to that batch, and the subsequent batch is still
processed: nine records in input order, the first eight errors, the ninth a
success. -/
theorem c6_batch_failure_isolation {Img : Type} (env : Env Img)
    (q1 q2 q3 q4 q5 q6 q7 q8 q9 : String)
    (i1 i2 i3 i4 i5 i6 i7 i8 i9 : Img) (t9 : String) (s9 : List Int) (msg : String)
    (hvalid : ∀ p ∈ [q1, q2, q3, q4, q5, q6, q7, q8, q9],
      pyStrip p = p ∧ ¬p = "" ∧ is_valid_url p = false ∧ is_valid_path env p = true)
    (hne9 : ∀ p ∈ [q1, q2, q3, q4, q5, q6, q7, q8], ¬p = q9)
    (ho1 : env.openImage q1 = .ok i1) (ho2 : env.openImage q2 = .ok i2)
    (ho3 : env.openImage q3 = .ok i3) (ho4 : env.openImage q4 = .ok i4)
    (ho5 : env.openImage q5 = .ok i5) (ho6 : env.openImage q6 = .ok i6)
    (ho7 : env.openImage q7 = .ok i7) (ho8 : env.openImage q8 = .ok i8)
    (ho9 : env.openImage q9 = .ok i9)
    (hclf : env.processImages [i1, i2, i3, i4, i5, i6, i7, i8] = .error msg)
    (hcl2 : env.processImages [i9] = .ok [(t9, s9)]) :
    process_urls_or_paths [q1, q2, q3, q4, q5, q6, q7, q8, q9] env none =
      [{ path := some q1, filename := some (basename q1),
         error := some ("Batch processing error: " ++ msg) },
       { path := some q2, filename := some (basename q2),
         error := some ("Batch processing error: " ++ msg) },
       { path := some q3, filename := some (basename q3),
         error := some ("Batch processing error: " ++ msg) },
       { path := some q4, filename := some (basename q4),
         error := some ("Batch processing error: " ++ msg) },
       { path := some q5, filename := some (basename q5),
         error := some ("Batch processing error: " ++ msg) },
       { path := some q6, filename := some (basename q6),
         error := some ("Batch processing error: " ++ msg) },
       { path := some q7, filename := some (basename q7),
         error := some ("Batch processing error: " ++ msg) },
       { path := some q8, filename := some (basename q8),
         error := some ("Batch processing error: " ++ msg) },
       { path := some q9, filename := some (basename q9), tags := some t9,
         scores := some s9, image := some i9 }] := by
  obtain ⟨hs1, hn1, hu1, hq1⟩ := hvalid q1 (by simp)
  obtain ⟨hs2, hn2, hu2, hq2⟩ := hvalid q2 (by simp)
  obtain ⟨hs3, hn3, hu3, hq3⟩ := hvalid q3 (by simp)
  obtain ⟨hs4, hn4, hu4, hq4⟩ := hvalid q4 (by simp)
  obtain ⟨hs5, hn5, hu5, hq5⟩ := hvalid q5 (by simp)
  obtain ⟨hs6, hn6, hu6, hq6⟩ := hvalid q6 (by simp)
  obtain ⟨hs7, hn7, hu7, hq7⟩ := hvalid q7 (by simp)
  obtain ⟨hs8, hn8, hu8, hq8⟩ := hvalid q8 (by simp)
  obtain ⟨hs9, hn9, hu9, hq9⟩ := hvalid q9 (by simp)
  have hcb1 : ∀ d : Dict Img,
      classifyBatch env d [(q1, i1), (q2, i2), (q3, i3), (q4, i4),
        (q5, i5), (q6, i6), (q7, i7), (q8, i8)] =
        storeBatchFailure d [q1, q2, q3, q4, q5, q6, q7, q8]
          ("Batch processing error: " ++ msg) := by
    intro d
    simp [classifyBatch, hclf]
  have hcb2 : ∀ d : Dict Img,
      classifyBatch env d [(q9, i9)] =
        dset d q9 { path := some q9, filename := some (basename q9), tags := some t9,
                    scores := some s9, image := some i9 } := by
    intro d
    simp [classifyBatch, hcl2, storeBatchSuccess]
  have hload1 : ∀ T, loadBatch env none T [q1, q2, q3, q4, q5, q6, q7, q8] 0 =
      ([(q1, i1), (q2, i2), (q3, i3), (q4, i4), (q5, i5), (q6, i6), (q7, i7), (q8, i8)],
        [], 8, [], true) := by
    intro T
    simp [loadBatch, ho1, ho2, ho3, ho4, ho5, ho6, ho7, ho8]
  have hload2 : ∀ T c, loadBatch env none T [q9] c = ([(q9, i9)], [], c + 1, [], true) := by
    intro T c
    simp [loadBatch, ho9]
  have hch : chunks8 [q1, q2, q3, q4, q5, q6, q7, q8, q9] =
      [[q1, q2, q3, q4, q5, q6, q7, q8], [q9]] := rfl
  have hcls : classifyInputs env [q1, q2, q3, q4, q5, q6, q7, q8, q9] ([] : Dict Img) =
      ([], [q1, q2, q3, q4, q5, q6, q7, q8, q9], []) := by
    simp [classifyInputs, hs1, hs2, hs3, hs4, hs5, hs6, hs7, hs8, hs9,
      hn1, hn2, hn3, hn4, hn5, hn6, hn7, hn8, hn9,
      hu1, hu2, hu3, hu4, hu5, hu6, hu7, hu8, hu9,
      hq1, hq2, hq3, hq4, hq5, hq6, hq7, hq8, hq9]
  have hpb : ∀ T, pathBatches env none T
      [[q1, q2, q3, q4, q5, q6, q7, q8], [q9]] ([] : Dict Img) 0 =
      (dset (storeBatchFailure [] [q1, q2, q3, q4, q5, q6, q7, q8]
          ("Batch processing error: " ++ msg)) q9
        { path := some q9, filename := some (basename q9), tags := some t9,
          scores := some s9, image := some i9 }, 9, [], true) := by
    intro T
    simp [pathBatches, hload1, hload2 T 8, storeBatchErrors, hcb1, hcb2]
  have g9 : dget (dset (storeBatchFailure ([] : Dict Img)
      [q1, q2, q3, q4, q5, q6, q7, q8] ("Batch processing error: " ++ msg)) q9
      { path := some q9, filename := some (basename q9), tags := some t9,
        scores := some s9, image := some i9 }) q9 =
      some { path := some q9, filename := some (basename q9), tags := some t9,
             scores := some s9, image := some i9 } :=
    dget_dset_self _ _ _
  have gmem : ∀ p ∈ [q1, q2, q3, q4, q5, q6, q7, q8],
      dget (dset (storeBatchFailure ([] : Dict Img)
        [q1, q2, q3, q4, q5, q6, q7, q8] ("Batch processing error: " ++ msg)) q9
        { path := some q9, filename := some (basename q9), tags := some t9,
          scores := some s9, image := some i9 }) p =
      some { path := some p, filename := some (basename p),
             error := some ("Batch processing error: " ++ msg) } := by
    intro p hp
    rw [dget_dset_ne _ _ _ _ (hne9 p hp)]
    exact dget_storeBatchFailure_of_mem _ _ _ _ hp
  have g1 := gmem q1 (by simp)
  have g2 := gmem q2 (by simp)
  have g3 := gmem q3 (by simp)
  have g4 := gmem q4 (by simp)
  have g5 := gmem q5 (by simp)
  have g6 := gmem q6 (by simp)
  have g7 := gmem q7 (by simp)
  have g8 := gmem q8 (by simp)
  simp only [process_urls_or_paths, process_urls_or_paths_t, hcls]
  rw [hch]
  simp only [urlsLoop]
  rw [hpb]
  simp only [replay, hs1, hs2, hs3, hs4, hs5, hs6, hs7, hs8, hs9,
    g1, g2, g3, g4, g5, g6, g7, g8, g9]
  simp [hn1, hn2, hn3, hn4, hn5, hn6, hn7, hn8, hn9]

/-- Concrete environment for the C6 witness: the classifier rejects batches
of eight images and accepts smaller ones. -/
def c6Env : Env Nat :=
  { demoEnv with
    processImages := fun imgs =>
      if imgs.length = 8 then .error "GPU error"
      else .ok (imgs.map (fun _ => ("tag", [1]))) }

/-- Witness for C6 at nine concrete paths: the eight-image batch call fails,
each of its items gets its own error record, and the ninth path is still
processed successfully. -/
theorem c6_witness :
    process_urls_or_paths
        ["p1.jpg", "p2.jpg", "p3.jpg", "p4.jpg", "p5.jpg",
         "p6.jpg", "p7.jpg", "p8.jpg", "p9.jpg"] c6Env none =
      [{ path := some "p1.jpg", filename := some (basename "p1.jpg"),
         error := some ("Batch processing error: " ++ "GPU error") },
       { path := some "p2.jpg", filename := some (basename "p2.jpg"),
         error := some ("Batch processing error: " ++ "GPU error") },
       { path := some "p3.jpg", filename := some (basename "p3.jpg"),
         error := some ("Batch processing error: " ++ "GPU error") },
       { path := some "p4.jpg", filename := some (basename "p4.jpg"),
         error := some ("Batch processing error: " ++ "GPU error") },
       { path := some "p5.jpg", filename := some (basename "p5.jpg"),
         error := some ("Batch processing error: " ++ "GPU error") },
       { path := some "p6.jpg", filename := some (basename "p6.jpg"),
         error := some ("Batch processing error: " ++ "GPU error") },
       { path := some "p7.jpg", filename := some (basename "p7.jpg"),
         error := some ("Batch processing error: " ++ "GPU error") },
       { path := some "p8.jpg", filename := some (basename "p8.jpg"),
         error := some ("Batch processing error: " ++ "GPU error") },
       { path := some "p9.jpg", filename := some (basename "p9.jpg"),
         tags := some "tag", scores := some [1], image := some 1 }] :=
  c6_batch_failure_isolation c6Env
    "p1.jpg" "p2.jpg" "p3.jpg" "p4.jpg" "p5.jpg" "p6.jpg" "p7.jpg" "p8.jpg" "p9.jpg"
    1 1 1 1 1 1 1 1 1 "tag" [1] "GPU error"
    (by decide) (by decide) rfl rfl rfl rfl rfl rfl rfl rfl rfl rfl rfl

end AutoTagger
